import Mathlib

/-!
# DeliverEats: the dispatch core of `riders.cpp` and `main.cpp`

A shallow embedding of the rider class hierarchy (`riders.h`, `riders.cpp`) and of the
per-order engine of `main.cpp` (`split`, `to_minutes`, `update_returning_riders`,
`process_order`, the day boundary of `main`).

Modelling conventions.
* A C++ `double` is a rational (`ℚ`); infinities and NaN are not represented. The text a
  distance is parsed from and the three operations of `calculate_time` are rounded to the
  nearest double (`double_round`), because the trip time is rounded to a whole minute
  afterwards. The mileage sums of `add_distance` and `can_take_order` are written as the
  source writes them, `current_distance + distance * 2`, without a rounding step.
* A C++ `int` is an unbounded `Int` (signed overflow is undefined behaviour in the source).
* A `Delivery_Rider*` is an index into the rider pool (`Engine.riders`), the heap of `main`.
* A C++ exception is the `Except.error` result; an exception nobody catches ends the program.
-/

namespace DeliverEats

/-! ## riders.h / riders.cpp -/

/-- The data members of the base class `Delivery_Rider` (riders.h). -/
structure Delivery_Rider where
  name : String
  vehicle_type : String
  speed : Int
  max_distance : ℚ
  current_distance : ℚ
deriving DecidableEq

/-- The value of `std::numeric_limits<double>::max()`, `(2 - 2^(-52)) * 2^1023`. -/
def DBL_MAX : ℚ := 2 ^ 1024 - 2 ^ 971

/-- The number of binary digits of `n`, with `fuel` turns at most (`fuel = n` is enough). -/
def bit_length : Nat → Nat → Nat
  | 0, _ => 0
  | fuel + 1, n => if n = 0 then 0 else bit_length fuel (n / 2) + 1

/-- The binary exponent of a rational `x ≠ 0`: the `k` with `2 ^ k ≤ |x| < 2 ^ (k + 1)`. -/
def binary_exponent (x : ℚ) : Int :=
  let k : Int := (bit_length x.num.natAbs x.num.natAbs : Int) - (bit_length x.den x.den : Int)
  if (2 : ℚ) ^ k ≤ |x| then k else k - 1

/-- Rounding to the nearest integer, a tie to the even one. -/
def round_half_even (q : ℚ) : Int :=
  if q - ⌊q⌋ < 1 / 2 then ⌊q⌋
  else if 1 / 2 < q - ⌊q⌋ then ⌊q⌋ + 1
  else if ⌊q⌋ % 2 = 0 then ⌊q⌋ else ⌊q⌋ + 1

/-- The IEEE 754 double nearest to `x` (round to nearest, ties to even): 53 significant
binary digits, and multiples of `2 ^ (-1074)` below `2 ^ (-1022)`. A result above `DBL_MAX`
stands for the infinity the source gets there. -/
def double_round (x : ℚ) : ℚ :=
  if x = 0 then 0
  else (round_half_even (x / 2 ^ max (binary_exponent x - 52) (-1074)) : ℚ)
    * 2 ^ max (binary_exponent x - 52) (-1074)

/-- Constructor `Moped_Rider::Moped_Rider(name, speed)`. -/
def Moped_Rider (name : String) (speed : Int) : Delivery_Rider :=
  { name := name, vehicle_type := "Moped", speed := speed,
    max_distance := DBL_MAX, current_distance := 0 }

/-- Constructor `Bicycle_Rider::Bicycle_Rider(name, speed, max_dist)`. -/
def Bicycle_Rider (name : String) (speed : Int) (max_dist : ℚ) : Delivery_Rider :=
  { name := name, vehicle_type := "Bicycle", speed := speed,
    max_distance := max_dist, current_distance := 0 }

/-- Member `Delivery_Rider::get_vehicle_type`. -/
def Delivery_Rider.get_vehicle_type (r : Delivery_Rider) : String := r.vehicle_type

/-- Member `Delivery_Rider::can_take_order` (riders.cpp 48-62): three early returns. -/
def Delivery_Rider.can_take_order (r : Delivery_Rider) (order_distance : ℚ)
    (is_priority : Bool) : Bool :=
  if is_priority && r.vehicle_type == "Bicycle" then false
  else if r.vehicle_type == "Bicycle" && decide (order_distance > 2) then false
  else
    let trip := order_distance * 2
    if decide (r.max_distance < 90000) && decide (r.current_distance + trip > r.max_distance)
    then false
    else true

/-- Member `Delivery_Rider::add_distance` (riders.cpp 70-73). -/
def Delivery_Rider.add_distance (r : Delivery_Rider) (distance : ℚ) : Delivery_Rider :=
  { r with current_distance := r.current_distance + distance * 2 }

/-- Member `Delivery_Rider::reset_daily_mileage` (riders.cpp 78-81). -/
def Delivery_Rider.reset_daily_mileage (r : Delivery_Rider) : Delivery_Rider :=
  { r with current_distance := 0 }

/-- Member `Delivery_Rider::calculate_time` (riders.cpp 91-96), in minutes: a product, a
quotient and a product of doubles, each rounded to the nearest double (the conversion of the
`int` speed is exact). For speed 0 the source divides a double by zero; the value of the
model there is not the source's. -/
def Delivery_Rider.calculate_time (r : Delivery_Rider) (distance : ℚ) : ℚ :=
  let total_distance := double_round (distance * 2)
  let hours := double_round (total_distance / (r.speed : ℚ))
  double_round (hours * 60)

/-! ## The C++ library functions used by main.cpp -/

/-- The exceptions of `std::stoi` and `std::stod`; `not_modelled` marks the spellings of a
number (hexadecimal, infinity, NaN) that have no place in the rational model. -/
inductive Exn where
  | invalid_argument
  | out_of_range
  | not_modelled
deriving DecidableEq

deriving instance DecidableEq for Except

/-- The C locale's `isspace`: space, and the control characters 9 to 13. -/
def isspace (c : Char) : Bool := c == ' ' || (9 ≤ c.toNat && c.toNat ≤ 13)

/-- Skips the leading white space, as `strtol` and `strtod` do. -/
def skip_space : List Char → List Char
  | [] => []
  | c :: cs => if isspace c then skip_space cs else c :: cs

/-- Reads the longest prefix of decimal digits: its value on top of `acc`, the number of
digits read on top of `n`, and the unread rest. -/
def read_digits : List Char → Nat → Nat → Nat × Nat × List Char
  | [], acc, n => (acc, n, [])
  | c :: cs, acc, n =>
    if c.isDigit then read_digits cs (acc * 10 + (c.toNat - 48)) (n + 1) else (acc, n, c :: cs)

/-- Reads an optional sign: `true` for a minus, and the unread rest. -/
def read_sign : List Char → Bool × List Char
  | '-' :: cs => (true, cs)
  | '+' :: cs => (false, cs)
  | cs => (false, cs)

/-- Model of `std::stoi(str)` (base 10): white space, an optional sign, decimal digits; what
follows the digits is ignored. No digit at all throws `invalid_argument`, a value outside the
32-bit `int` throws `out_of_range`. -/
def stoi (str : String) : Except Exn Int :=
  let (neg, rest) := read_sign (skip_space str.data)
  let (v, n, _) := read_digits rest 0 0
  if n = 0 then .error .invalid_argument
  else
    let x : Int := if neg then -(v : Int) else (v : Int)
    if x < -2147483648 ∨ 2147483647 < x then .error .out_of_range else .ok x

/-- Whether the text starts with one of the non-decimal spellings `strtod` accepts
(`inf`, `nan`, `0x`, in either case). -/
def special_spelling (cs : List Char) : Bool :=
  match cs.map Char.toLower with
  | 'i' :: 'n' :: 'f' :: _ => true
  | 'n' :: 'a' :: 'n' :: _ => true
  | '0' :: 'x' :: _ => true
  | _ => false

/-- The exponent part of a decimal number: `e` or `E`, an optional sign and at least one
digit; anything else is no exponent part and the exponent is 0. -/
def read_exponent : List Char → Int
  | c :: cs =>
    if c == 'e' || c == 'E' then
      let (neg, rest) := read_sign cs
      let (v, n, _) := read_digits rest 0 0
      if n = 0 then 0 else if neg then -(v : Int) else (v : Int)
    else 0
  | [] => 0

/-- Model of `std::stod(str)` for decimal spellings: white space, an optional sign, digits
with an optional fraction part, an optional exponent; what follows is ignored. The value is
the double nearest to the number the text denotes. No digit at all throws
`invalid_argument`; `out_of_range` is thrown when the result overflows (it is above
`DBL_MAX`) and, as glibc's `strtod` reports it, when it underflows (it is below
`2 ^ (-1022)` and not the number the text denotes). -/
def stod (str : String) : Except Exn ℚ :=
  let (neg, rest) := read_sign (skip_space str.data)
  if special_spelling rest then .error .not_modelled
  else
    let (ip, n1, rest1) := read_digits rest 0 0
    let (m, n2, rest2) :=
      match rest1 with
      | '.' :: cs => read_digits cs ip 0
      | cs => (ip, 0, cs)
    if n1 + n2 = 0 then .error .invalid_argument
    else
      let ex : Int := read_exponent rest2 - (n2 : Int)
      let exact : ℚ := (m : ℚ) * (10 : ℚ) ^ ex
      let v : ℚ := double_round exact
      if DBL_MAX < v then .error .out_of_range
      else if v < 2 ^ (-1022 : Int) ∧ v ≠ exact then .error .out_of_range
      else .ok (if neg then -v else v)

/-- Model of `std::round`: to the nearest integer, halves away from zero. -/
def std_round (x : ℚ) : Int := if 0 ≤ x then ⌊x + 1 / 2⌋ else ⌈x - 1 / 2⌉

/-! ## main.cpp -/

/-- Constant `COST_STANDARD` (main.cpp 18). -/
def COST_STANDARD : ℚ := 2

/-- Constant `COST_PRIORITY` (main.cpp 19). -/
def COST_PRIORITY : ℚ := 3

/-- Struct `ActiveDelivery` (main.cpp 22-25): `rider` is the pointer, an index of the pool. -/
structure ActiveDelivery where
  return_time : Int
  rider : Nat
deriving DecidableEq

/-- Struct `DailyStats` (main.cpp 32-53), with its default member initialisers. -/
structure DailyStats where
  total_deliveries : Int := 0
  total_money : ℚ := 0
  bicycle_deliveries : Int := 0
  bicycle_money : ℚ := 0
  moped_deliveries : Int := 0
  moped_money : ℚ := 0
  missed_orders : Int := 0
deriving DecidableEq

/-- Member `DailyStats::reset` (main.cpp 44-52). -/
def DailyStats.reset (_stats : DailyStats) : DailyStats :=
  { total_deliveries := 0, total_money := 0, bicycle_deliveries := 0, bicycle_money := 0,
    moped_deliveries := 0, moped_money := 0, missed_orders := 0 }

/-- The loop of `split` (main.cpp 62-64): `token` holds, reversed, the characters read since
the last delimiter. A `getline` that meets the end of the text without having read a
character fails, so a final empty token is not produced. -/
def split_loop (delimiter : Char) : List Char → List Char → List String
  | [], token => if token.isEmpty then [] else [String.mk token.reverse]
  | c :: cs, token =>
    if c = delimiter then String.mk token.reverse :: split_loop delimiter cs []
    else split_loop delimiter cs (c :: token)

/-- Function `split` (main.cpp 58-66). -/
def split (str : String) (delimiter : Char) : List String :=
  split_loop delimiter str.data []

/-- Function `to_minutes` (main.cpp 71-77): 0 without a dot, else hours and minutes by
`std::stoi`, hours first. -/
def to_minutes (time_str : String) : Except Exn Int :=
  match time_str.data.span (fun c => c != '.') with
  | (_, []) => .ok 0
  | (before, _ :: after) =>
    match stoi (String.mk before) with
    | .error x => .error x
    | .ok hours =>
      match stoi (String.mk after) with
      | .error x => .error x
      | .ok mins => .ok (hours * 60 + mins)

/-- The first loop of `update_returning_riders` (main.cpp 116-121), from index `i` on: the
riders of the due entries are pushed to the back of the queue and their indices recorded. -/
def returning_scan (current_time : Int) :
    List ActiveDelivery → Nat → List Nat → List Nat → List Nat × List Nat
  | [], _, waiting_queue, to_remove_indices => (waiting_queue, to_remove_indices)
  | a :: rest, i, waiting_queue, to_remove_indices =>
    if a.return_time ≤ current_time then
      returning_scan current_time rest (i + 1) (waiting_queue ++ [a.rider])
        (to_remove_indices ++ [i])
    else returning_scan current_time rest (i + 1) waiting_queue to_remove_indices

/-- Function `update_returning_riders` (main.cpp 112-125): the scan, then the recorded
indices are erased from the last one to the first. The result is the pair of the new
`active_deliveries` and the new `waiting_queue`. -/
def update_returning_riders (current_time : Int) (active_deliveries : List ActiveDelivery)
    (waiting_queue : List Nat) : List ActiveDelivery × List Nat :=
  let (queue1, to_remove_indices) := returning_scan current_time active_deliveries 0
    waiting_queue []
  (to_remove_indices.foldr (fun i active => active.eraseIdx i) active_deliveries, queue1)

/-- The assignment loop of `process_order` (main.cpp 155-161): the first pointer of the
queue whose rider accepts the order is erased from the queue and the loop ends. The result
is the pointer, the rider it points to, and the queue without it. -/
def assign_loop (riders : List Delivery_Rider) (dist : ℚ) (is_priority : Bool) :
    List Nat → Option (Nat × Delivery_Rider × List Nat)
  | [] => none
  | p :: rest =>
    match riders[p]? with
    | some r =>
      if r.can_take_order dist is_priority then some (p, r, rest)
      else
        match assign_loop riders dist is_priority rest with
        | some (q, s, rest1) => some (q, s, p :: rest1)
        | none => none
    | none =>
      match assign_loop riders dist is_priority rest with
      | some (q, s, rest1) => some (q, s, p :: rest1)
      | none => none

/-- The indices `returning_scan` records for a list that starts at index `i`. -/
def due_indices (current_time : Int) : List ActiveDelivery → Nat → List Nat
  | [], _ => []
  | a :: rest, i =>
    if a.return_time ≤ current_time then i :: due_indices current_time rest (i + 1)
    else due_indices current_time rest (i + 1)

/-- The test `(*it)->can_take_order(dist, is_priority)` of the assignment loop, for the
pointer `p` into the pool `riders`. -/
def can_take (riders : List Delivery_Rider) (p : Nat) (dist : ℚ) (is_priority : Bool) : Bool :=
  match riders[p]? with
  | some r => r.can_take_order dist is_priority
  | none => false

/-- The state `process_order` works on: the rider objects of `all_riders` (the heap), the
two containers of rider pointers and the statistics. -/
structure Engine where
  riders : List Delivery_Rider
  waiting_queue : List Nat
  active_deliveries : List ActiveDelivery
  stats : DailyStats
deriving DecidableEq

/-- Step 3 of `process_order` for an assigned rider (main.cpp 165-177): the statistics. -/
def DailyStats.record_delivery (stats : DailyStats) (vehicle_type : String) (cost : ℚ) :
    DailyStats :=
  let stats1 := { stats with total_deliveries := stats.total_deliveries + 1,
                             total_money := stats.total_money + cost }
  if vehicle_type == "Bicycle" then
    { stats1 with bicycle_deliveries := stats1.bicycle_deliveries + 1,
                  bicycle_money := stats1.bicycle_money + cost }
  else
    { stats1 with moped_deliveries := stats1.moped_deliveries + 1,
                  moped_money := stats1.moped_money + cost }

/-- Steps 1 to 3 of `process_order` (main.cpp 150-185), for the parsed order. -/
def dispatch (order_time : Int) (dist : ℚ) (is_priority : Bool) (e : Engine) : Engine :=
  let (active1, queue1) := update_returning_riders order_time e.active_deliveries
    e.waiting_queue
  match assign_loop e.riders dist is_priority queue1 with
  | some (p, r, queue2) =>
    let assigned_rider := r.add_distance dist
    let cost := if is_priority then COST_PRIORITY else COST_STANDARD
    let duration := assigned_rider.calculate_time dist
    let time_taken := std_round duration
    { riders := e.riders.set p assigned_rider,
      waiting_queue := queue2,
      active_deliveries := active1 ++ [{ return_time := order_time + time_taken, rider := p }],
      stats := e.stats.record_delivery assigned_rider.get_vehicle_type cost }
  | none =>
    { e with waiting_queue := queue1, active_deliveries := active1,
             stats := { e.stats with missed_orders := e.stats.missed_orders + 1 } }

/-- Function `process_order` (main.cpp 137-185). A line that does not split into three
fields returns at once; the time and the distance are parsed with no `try` around them, so
an exception of `std::stoi` or `std::stod` leaves the function. -/
def process_order (line : String) (e : Engine) : Except Exn Engine :=
  match split line ':' with
  | [time_str, dist_str, type] =>
    match to_minutes time_str with
    | .error x => .error x
    | .ok order_time =>
      match stod dist_str with
      | .error x => .error x
      | .ok dist => .ok (dispatch order_time dist (type == "Priority") e)
  | _ => .ok e

/-- The order a line denotes when `process_order` gets past its parsing (main.cpp 142-148):
three fields, the time and the distance parsed without an exception. -/
def parse_order (line : String) : Option (Int × ℚ × Bool) :=
  match split line ':' with
  | [time_str, dist_str, type] =>
    match to_minutes time_str with
    | .error _ => none
    | .ok order_time =>
      match stod dist_str with
      | .error _ => none
      | .ok dist => some (order_time, dist, type == "Priority")
  | _ => none

/-- The pointers held by the two containers together: the queue, then the registry. -/
def owners (e : Engine) : List Nat :=
  e.waiting_queue ++ e.active_deliveries.map ActiveDelivery.rider

/-- The day boundary of `main` (main.cpp 228-235): statistics reset, both containers
cleared, every rider reset and pushed to the queue in the order of `all_riders`. -/
def day_boundary (e : Engine) : Engine :=
  { riders := e.riders.map Delivery_Rider.reset_daily_mileage,
    waiting_queue := List.range e.riders.length,
    active_deliveries := [],
    stats := e.stats.reset }

/-- The order lines of one day, processed one after the other; an exception ends the run. -/
def process_orders : List String → Engine → Except Exn Engine
  | [], e => .ok e
  | line :: rest, e =>
    match process_order line e with
    | .error x => .error x
    | .ok e1 => process_orders rest e1

/-- The rider pool `all_riders` of `main` (main.cpp 197-205). -/
def all_riders : List Delivery_Rider :=
  [Moped_Rider "Anne" 32, Moped_Rider "Jim" 28, Bicycle_Rider "Sue" 4 23,
   Bicycle_Rider "Bill" 5 17, Moped_Rider "James" 25, Moped_Rider "Amy" 24,
   Moped_Rider "Bob" 27, Bicycle_Rider "Steve" 3 21]

/-! ## Concrete engine states for the examples -/

/-- The engine of `main` before the first date line: the pool, empty containers. -/
def initial_engine : Engine :=
  { riders := all_riders, waiting_queue := [], active_deliveries := [], stats := {} }

/-- The engine of `main` after the orders `10.30:2.5:Priority` and `10.31:1.5:Standard` of
a day: Anne and Jim are out (back at 10.39 and 10.37) and the two bicycles Sue and Bill are
at the front of the queue. -/
def two_out_engine : Engine :=
  { riders := (all_riders.set 0 ((Moped_Rider "Anne" 32).add_distance (5 / 2))).set 1
      ((Moped_Rider "Jim" 28).add_distance (3 / 2)),
    waiting_queue := [2, 3, 4, 5, 6, 7],
    active_deliveries := [{ return_time := 639, rider := 0 }, { return_time := 637, rider := 1 }],
    stats := { total_deliveries := 2, total_money := 5, moped_deliveries := 2,
               moped_money := 5 } }

/-- A pool of one bicycle built with cap 90000 that has ridden exactly 90000, waiting. -/
def big_cap_engine : Engine :=
  { riders := [(Bicycle_Rider "Bike" 10 90000).add_distance 45000], waiting_queue := [0],
    active_deliveries := [], stats := {} }

/-- A pool of one moped of speed 24 (the speed of Amy in `main`) at the start of a day. -/
def amy_engine : Engine :=
  day_boundary { riders := [Moped_Rider "Amy" 24], waiting_queue := [],
                 active_deliveries := [], stats := {} }

/-- A pool of one moped of speed 32 at the start of a day. -/
def one_moped_engine : Engine :=
  day_boundary { riders := [Moped_Rider "Anne" 32], waiting_queue := [],
                 active_deliveries := [], stats := {} }

/-- A pool of one bicycle with the cap 10.0 of tests.cpp that has ridden 4.0, waiting. -/
def small_cap_engine : Engine :=
  { riders := [(Bicycle_Rider "Bike1" 10 10).add_distance 2], waiting_queue := [0],
    active_deliveries := [], stats := {} }

/-- The moped of tests.cpp (speed 30) as a pool of one, at the start of a day. -/
def test_moped_engine : Engine :=
  day_boundary { riders := [Moped_Rider "Moped1" 30], waiting_queue := [],
                 active_deliveries := [], stats := {} }

/-- The timestamps of the lines that `process_order` gets to dispatch, in line order. -/
def timestamps (lines : List String) : List Int :=
  lines.filterMap (fun line => (parse_order line).map (fun o => o.1))

/-! ## Eligibility: `can_take_order` -/

/-- The sentinel cap of a Moped is not below the threshold of the cap check. -/
theorem DBL_MAX_ge : ¬ DBL_MAX < 90000 := by
  unfold DBL_MAX
  norm_num

/-- The fields `add_distance` leaves alone, over a sequence of commits. -/
theorem foldl_add_distance_fixed (ds : List ℚ) (r : Delivery_Rider) :
    (ds.foldl Delivery_Rider.add_distance r).vehicle_type = r.vehicle_type
    ∧ (ds.foldl Delivery_Rider.add_distance r).max_distance = r.max_distance := by
  induction ds generalizing r with
  | nil => exact ⟨rfl, rfl⟩
  | cons d ds ih =>
    have h := ih (r.add_distance d)
    simpa [Delivery_Rider.add_distance] using h

/-- C6: a `Bicycle_Rider`, whatever its speed, its cap and its mileage (any sequence of
`add_distance` calls), refuses every priority order. -/
theorem bicycle_refuses_priority (name : String) (speed : Int) (max_dist : ℚ)
    (ds : List ℚ) (d : ℚ) :
    (ds.foldl Delivery_Rider.add_distance (Bicycle_Rider name speed max_dist)).can_take_order
      d true = false := by
  have hv := (foldl_add_distance_fixed ds (Bicycle_Rider name speed max_dist)).1
  have hb : (Bicycle_Rider name speed max_dist).vehicle_type = "Bicycle" := rfl
  rw [hb] at hv
  simp [Delivery_Rider.can_take_order, hv]

/-- C7: a `Bicycle_Rider`, whatever its speed, its cap and its mileage (any sequence of
`add_distance` calls), refuses every order of one-way distance above 2.0, priority or not. -/
theorem bicycle_refuses_long (name : String) (speed : Int) (max_dist : ℚ) (ds : List ℚ)
    (d : ℚ) (is_priority : Bool) (hd : d > 2) :
    (ds.foldl Delivery_Rider.add_distance (Bicycle_Rider name speed max_dist)).can_take_order
      d is_priority = false := by
  have hv := (foldl_add_distance_fixed ds (Bicycle_Rider name speed max_dist)).1
  have hb : (Bicycle_Rider name speed max_dist).vehicle_type = "Bicycle" := rfl
  rw [hb] at hv
  simp [Delivery_Rider.can_take_order, hv, hd]

/-- Witness of C7: the bike of tests.cpp (speed 10, cap 10.0), fresh, and distance 2.1. -/
theorem bicycle_refuses_long_witness :
    (21 / 10 : ℚ) > 2 ∧
    (([] : List ℚ).foldl Delivery_Rider.add_distance
      (Bicycle_Rider "Bike1" 10 10)).can_take_order (21 / 10) false = false :=
  ⟨by norm_num, bicycle_refuses_long "Bike1" 10 10 [] (21 / 10) false (by norm_num)⟩

/-- C8: a `Moped_Rider`, whatever its speed and its mileage (any sequence of `add_distance`
calls), accepts every order, priority or not, of any distance: the cap check never fires. -/
theorem moped_accepts_all (name : String) (speed : Int) (ds : List ℚ) (d : ℚ)
    (is_priority : Bool) :
    (ds.foldl Delivery_Rider.add_distance (Moped_Rider name speed)).can_take_order
      d is_priority = true := by
  obtain ⟨hv, hm⟩ := foldl_add_distance_fixed ds (Moped_Rider name speed)
  have hb : (Moped_Rider name speed).vehicle_type = "Moped" := rfl
  have hc : (Moped_Rider name speed).max_distance = DBL_MAX := rfl
  rw [hb] at hv
  rw [hc] at hm
  have hlt := DBL_MAX_ge
  simp [Delivery_Rider.can_take_order, hv, hm, hlt]

/-! ## Reconciliation: `update_returning_riders` -/

/-- What the first loop of `update_returning_riders` computes. -/
theorem returning_scan_eq (T : Int) (l : List ActiveDelivery) (i : Nat) (q idx : List Nat) :
    returning_scan T l i q idx =
      (q ++ (l.filter (fun a => decide (a.return_time ≤ T))).map ActiveDelivery.rider,
       idx ++ due_indices T l i) := by
  induction l generalizing i q idx with
  | nil => simp [returning_scan, due_indices]
  | cons a rest ih =>
    by_cases h : a.return_time ≤ T
    · simp [returning_scan, due_indices, h, ih]
    · simp [returning_scan, due_indices, h, ih]

/-- Erasing the element that follows a prefix. -/
theorem eraseIdx_length_append {α : Type} (pre : List α) (a : α) (t : List α) :
    (pre ++ a :: t).eraseIdx pre.length = pre ++ t := by
  induction pre with
  | nil => rfl
  | cons b pre ih => simp [List.eraseIdx, ih]

/-- What the second loop of `update_returning_riders` computes: erasing the recorded indices
from the last to the first keeps exactly the entries that are not due, in their order. -/
theorem erase_due_indices (T : Int) (l pre : List ActiveDelivery) :
    (due_indices T l pre.length).foldr (fun i active => active.eraseIdx i) (pre ++ l) =
      pre ++ l.filter (fun a => decide (T < a.return_time)) := by
  induction l generalizing pre with
  | nil => simp [due_indices]
  | cons a rest ih =>
    have hlen : (pre ++ [a]).length = pre.length + 1 := by simp
    have happ : pre ++ a :: rest = (pre ++ [a]) ++ rest := by simp
    have ih1 := ih (pre ++ [a])
    rw [hlen, ← happ] at ih1
    by_cases h : a.return_time ≤ T
    · have hn : ¬ T < a.return_time := not_lt.mpr h
      simp only [due_indices, h, if_true, List.foldr_cons, ih1]
      simp [List.filter_cons, hn, eraseIdx_length_append]
    · have hn : T < a.return_time := not_le.mp h
      simp only [due_indices, h, if_false, ih1]
      simp [List.filter_cons, hn]

/-- The result of `update_returning_riders` as two filters of the registry. -/
theorem update_returning_riders_eq (T : Int) (active : List ActiveDelivery)
    (queue : List Nat) :
    update_returning_riders T active queue =
      (active.filter (fun a => decide (T < a.return_time)),
       queue ++ (active.filter (fun a => decide (a.return_time ≤ T))).map
         ActiveDelivery.rider) := by
  have h := erase_due_indices T active []
  simp only [List.length_nil, List.nil_append] at h
  simp [update_returning_riders, returning_scan_eq, h]

/-- C5: `update_returning_riders` drains exactly the due entries. The new registry is the
old one without the entries of return time at most `T`, the others in their order; the new
queue is the old queue followed by the riders of the removed entries in registry order; no
entry left is due, and every entry that is not due is still there. -/
theorem update_returning_riders_drains (T : Int) (active : List ActiveDelivery)
    (queue : List Nat) :
    (update_returning_riders T active queue).1 =
        active.filter (fun a => decide (T < a.return_time))
    ∧ (update_returning_riders T active queue).2 =
        queue ++ (active.filter (fun a => decide (a.return_time ≤ T))).map
          ActiveDelivery.rider
    ∧ (∀ a ∈ (update_returning_riders T active queue).1, T < a.return_time)
    ∧ (∀ a ∈ active, T < a.return_time →
        a ∈ (update_returning_riders T active queue).1) := by
  rw [update_returning_riders_eq]
  refine ⟨rfl, rfl, ?_, ?_⟩
  · intro a ha
    simpa using (List.mem_filter.mp ha).2
  · intro a ha hlt
    exact List.mem_filter.mpr ⟨ha, by simpa using hlt⟩

/-! ## Assignment: the loop of `process_order` -/

/-- A line that parses is processed by `dispatch` and returns normally. -/
theorem process_order_of_parse (line : String) (e : Engine) (T : Int) (d : ℚ) (prio : Bool)
    (h : parse_order line = some (T, d, prio)) :
    process_order line e = .ok (dispatch T d prio e) := by
  unfold parse_order at h
  unfold process_order
  split at h
  · next time_str dist_str type hs =>
    cases ht : to_minutes time_str with
    | error x => simp [ht] at h
    | ok t =>
      cases hd : stod dist_str with
      | error x => simp [ht, hd] at h
      | ok dd =>
        simp only [ht, hd, Option.some.injEq, Prod.mk.injEq] at h
        obtain ⟨h1, h2, h3⟩ := h
        subst h1 h2 h3
        rfl
  · exact absurd h (by simp)

/-- One turn of the loop at a rider that refuses the order. -/
theorem assign_loop_cons_false (riders : List Delivery_Rider) (d : ℚ) (prio : Bool)
    (x : Nat) (rest : List Nat) (hx : can_take riders x d prio = false) :
    assign_loop riders d prio (x :: rest) =
      (assign_loop riders d prio rest).map (fun t => (t.1, t.2.1, x :: t.2.2)) := by
  unfold can_take at hx
  cases hr : riders[x]? with
  | none =>
    cases hrest : assign_loop riders d prio rest with
    | none => simp [assign_loop, hr, hrest]
    | some t => simp [assign_loop, hr, hrest]
  | some r =>
    rw [hr] at hx
    simp only at hx
    cases hrest : assign_loop riders d prio rest with
    | none => simp [assign_loop, hr, hrest, hx]
    | some t => simp [assign_loop, hr, hrest, hx]

/-- One turn of the loop at a rider that accepts the order. -/
theorem assign_loop_cons_true (riders : List Delivery_Rider) (d : ℚ) (prio : Bool)
    (x : Nat) (rest : List Nat) (r : Delivery_Rider) (hr : riders[x]? = some r)
    (hok : r.can_take_order d prio = true) :
    assign_loop riders d prio (x :: rest) = some (x, r, rest) := by
  simp [assign_loop, hr, hok]

/-- The loop passes over a prefix of riders that refuse the order. -/
theorem assign_loop_skip (riders : List Delivery_Rider) (d : ℚ) (prio : Bool)
    (pre rest : List Nat) (hpre : ∀ x ∈ pre, can_take riders x d prio = false) :
    assign_loop riders d prio (pre ++ rest) =
      (assign_loop riders d prio rest).map (fun t => (t.1, t.2.1, pre ++ t.2.2)) := by
  induction pre with
  | nil => simp
  | cons x pre ih =>
    have hx := hpre x (List.mem_cons_self x pre)
    have ih1 := ih (fun y hy => hpre y (List.mem_cons_of_mem x hy))
    rw [List.cons_append, assign_loop_cons_false riders d prio x _ hx, ih1]
    cases assign_loop riders d prio rest <;> simp

/-- First fit: the loop stops at the first rider of the queue that accepts the order. -/
theorem assign_loop_hit (riders : List Delivery_Rider) (d : ℚ) (prio : Bool)
    (pre post : List Nat) (p : Nat) (r : Delivery_Rider)
    (hpre : ∀ x ∈ pre, can_take riders x d prio = false)
    (hr : riders[p]? = some r) (hok : r.can_take_order d prio = true) :
    assign_loop riders d prio (pre ++ p :: post) = some (p, r, pre ++ post) := by
  rw [assign_loop_skip riders d prio pre (p :: post) hpre,
    assign_loop_cons_true riders d prio p post r hr hok]
  rfl

/-- No rider of the queue accepts the order: the loop ends without an assignment. -/
theorem assign_loop_miss (riders : List Delivery_Rider) (d : ℚ) (prio : Bool)
    (queue : List Nat) (hq : ∀ x ∈ queue, can_take riders x d prio = false) :
    assign_loop riders d prio queue = none := by
  have h := assign_loop_skip riders d prio queue [] hq
  simpa [assign_loop] using h

/-- What an assignment tells: the assigned pointer splits the queue, it points to an
accepting rider, and every rider before it refused. -/
theorem assign_loop_some (riders : List Delivery_Rider) (d : ℚ) (prio : Bool)
    (queue : List Nat) (p : Nat) (r : Delivery_Rider) (queue2 : List Nat)
    (h : assign_loop riders d prio queue = some (p, r, queue2)) :
    ∃ pre post, queue = pre ++ p :: post ∧ queue2 = pre ++ post
      ∧ riders[p]? = some r ∧ r.can_take_order d prio = true
      ∧ ∀ x ∈ pre, can_take riders x d prio = false := by
  induction queue generalizing queue2 with
  | nil => simp [assign_loop] at h
  | cons x rest ih =>
    by_cases hx : can_take riders x d prio = true
    · unfold can_take at hx
      cases hr : riders[x]? with
      | none => simp [hr] at hx
      | some r0 =>
        rw [hr] at hx
        simp only at hx
        rw [assign_loop_cons_true riders d prio x rest r0 hr hx] at h
        simp only [Option.some.injEq, Prod.mk.injEq] at h
        obtain ⟨h1, h2, h3⟩ := h
        subst h1 h2 h3
        exact ⟨[], rest, rfl, rfl, hr, hx, by simp⟩
    · have hx0 : can_take riders x d prio = false := by simpa using hx
      rw [assign_loop_cons_false riders d prio x rest hx0] at h
      cases hrest : assign_loop riders d prio rest with
      | none => simp [hrest] at h
      | some t =>
        obtain ⟨q, s, rest1⟩ := t
        simp only [hrest, Option.map_some', Option.some.injEq, Prod.mk.injEq] at h
        obtain ⟨h1, h2, h3⟩ := h
        subst h1 h2 h3
        obtain ⟨pre, post, e1, e2, e3, e4, e5⟩ := ih rest1 hrest
        refine ⟨x :: pre, post, by simp [e1], by simp [e2], e3, e4, ?_⟩
        intro y hy
        rcases List.mem_cons.mp hy with hy1 | hy1
        · rw [hy1]; exact hx0
        · exact e5 y hy1

/-- What a miss tells: every rider of the queue refused. -/
theorem assign_loop_none (riders : List Delivery_Rider) (d : ℚ) (prio : Bool)
    (queue : List Nat) (h : assign_loop riders d prio queue = none) :
    ∀ x ∈ queue, can_take riders x d prio = false := by
  induction queue with
  | nil => simp
  | cons x rest ih =>
    by_cases hx : can_take riders x d prio = true
    · exfalso
      unfold can_take at hx
      cases hr : riders[x]? with
      | none => simp [hr] at hx
      | some r0 =>
        rw [hr] at hx
        simp only at hx
        simp [assign_loop, hr, hx] at h
    · have hx0 : can_take riders x d prio = false := by simpa using hx
      rw [assign_loop_cons_false riders d prio x rest hx0] at h
      have hrest : assign_loop riders d prio rest = none := by
        cases hh : assign_loop riders d prio rest with
        | none => rfl
        | some t => simp [hh] at h
      intro y hy
      rcases List.mem_cons.mp hy with hy1 | hy1
      · rw [hy1]; exact hx0
      · exact ih hrest y hy1

/-! ## The per-order transition -/

/-- The transition of an order that finds a rider. -/
theorem dispatch_hit (T : Int) (d : ℚ) (prio : Bool) (e : Engine) (p : Nat)
    (r : Delivery_Rider) (queue2 : List Nat)
    (h : assign_loop e.riders d prio
      (update_returning_riders T e.active_deliveries e.waiting_queue).2 = some (p, r, queue2)) :
    dispatch T d prio e =
      { riders := e.riders.set p (r.add_distance d),
        waiting_queue := queue2,
        active_deliveries :=
          (update_returning_riders T e.active_deliveries e.waiting_queue).1 ++
            [{ return_time := T + std_round ((r.add_distance d).calculate_time d),
               rider := p }],
        stats := e.stats.record_delivery (r.add_distance d).get_vehicle_type
          (if prio then COST_PRIORITY else COST_STANDARD) } := by
  unfold dispatch
  simp only [h]

/-- The transition of an order that finds no rider. -/
theorem dispatch_miss (T : Int) (d : ℚ) (prio : Bool) (e : Engine)
    (h : assign_loop e.riders d prio
      (update_returning_riders T e.active_deliveries e.waiting_queue).2 = none) :
    dispatch T d prio e =
      { e with
        waiting_queue := (update_returning_riders T e.active_deliveries e.waiting_queue).2,
        active_deliveries :=
          (update_returning_riders T e.active_deliveries e.waiting_queue).1,
        stats := { e.stats with missed_orders := e.stats.missed_orders + 1 } } := by
  unfold dispatch
  simp only [h]

/-- C3: assignment is first fit in queue order. For a line that parses, if the queue after
reconciliation is `pre ++ p :: post`, no rider of `pre` accepts the order and the rider `p`
points to accepts it, then `process_order` returns with `p` assigned (charged and pushed to
the registry) and the queue `pre ++ post`; if no rider of the queue accepts the order, the
queue after reconciliation is left as it is and nothing is pushed to the registry. -/
theorem process_order_first_fit (line : String) (e : Engine) (T : Int) (d : ℚ) (prio : Bool)
    (hline : parse_order line = some (T, d, prio)) :
    (∀ (pre : List Nat) (p : Nat) (post : List Nat) (r : Delivery_Rider),
      (update_returning_riders T e.active_deliveries e.waiting_queue).2 = pre ++ p :: post →
      (∀ x ∈ pre, can_take e.riders x d prio = false) →
      e.riders[p]? = some r → r.can_take_order d prio = true →
      process_order line e = .ok (dispatch T d prio e)
      ∧ (dispatch T d prio e).waiting_queue = pre ++ post
      ∧ (dispatch T d prio e).active_deliveries =
          (update_returning_riders T e.active_deliveries e.waiting_queue).1 ++
            [{ return_time := T + std_round ((r.add_distance d).calculate_time d),
               rider := p }]
      ∧ (dispatch T d prio e).riders = e.riders.set p (r.add_distance d))
    ∧ ((∀ x ∈ (update_returning_riders T e.active_deliveries e.waiting_queue).2,
          can_take e.riders x d prio = false) →
      process_order line e = .ok (dispatch T d prio e)
      ∧ (dispatch T d prio e).waiting_queue =
          (update_returning_riders T e.active_deliveries e.waiting_queue).2
      ∧ (dispatch T d prio e).active_deliveries =
          (update_returning_riders T e.active_deliveries e.waiting_queue).1
      ∧ (dispatch T d prio e).riders = e.riders) := by
  have hp := process_order_of_parse line e T d prio hline
  constructor
  · intro pre p post r hq hpre hr hok
    have ha := assign_loop_hit e.riders d prio pre post p r hpre hr hok
    rw [← hq] at ha
    rw [dispatch_hit T d prio e p r (pre ++ post) ha] at hp ⊢
    exact ⟨hp, rfl, rfl, rfl⟩
  · intro hq
    have ha := assign_loop_miss e.riders d prio _ hq
    rw [dispatch_miss T d prio e ha] at hp ⊢
    exact ⟨hp, rfl, rfl, rfl⟩

/-- Witness of C3: with the bicycles Sue and Bill at the front of the queue, the priority
order of 10.32 goes to James, the first moped behind them, and the others keep their order. -/
theorem process_order_first_fit_witness :
    parse_order "10.32:1.5:Priority" = some (632, 3 / 2, true)
    ∧ process_order "10.32:1.5:Priority" two_out_engine =
        .ok (dispatch 632 (3 / 2) true two_out_engine)
    ∧ (dispatch 632 (3 / 2) true two_out_engine).waiting_queue = [2, 3] ++ [5, 6, 7]
    ∧ (dispatch 632 (3 / 2) true two_out_engine).active_deliveries =
        (update_returning_riders 632 two_out_engine.active_deliveries
          two_out_engine.waiting_queue).1 ++
          [{ return_time := 632
               + std_round (((Moped_Rider "James" 25).add_distance (3 / 2)).calculate_time
                   (3 / 2)),
             rider := 4 }]
    ∧ (dispatch 632 (3 / 2) true two_out_engine).riders =
        two_out_engine.riders.set 4 ((Moped_Rider "James" 25).add_distance (3 / 2)) :=
  ⟨by decide!,
   (process_order_first_fit "10.32:1.5:Priority" two_out_engine 632 (3 / 2) true
      (by decide!)).1 [2, 3] 4 [5, 6, 7] (Moped_Rider "James" 25)
      (by decide!) (by decide!) (by decide!) (by decide!)⟩

/-- C2 as stated fails: a bicycle built with cap 90000 that has ridden exactly 90000 is
assigned the standard order of distance 1 and is left with mileage 90002, above its cap. -/
theorem assigned_over_cap_counterexample :
    process_order "10.00:1:Standard" big_cap_engine =
      .ok { riders := [{ name := "Bike", vehicle_type := "Bicycle", speed := 10,
                         max_distance := 90000, current_distance := 90002 }],
            waiting_queue := [],
            active_deliveries := [{ return_time := 612, rider := 0 }],
            stats := { total_deliveries := 1, total_money := 2, bicycle_deliveries := 1,
                       bicycle_money := 2 } }
    ∧ ¬ ((90002 : ℚ) ≤ 90000) := by
  refine ⟨by decide!, by norm_num⟩

/-- C2, amended: when `process_order` assigns a line that parses to a rider whose cap is
below 90000, the call returns and right after the commit that rider's mileage is at most
its cap. -/
theorem assigned_within_cap (line : String) (e : Engine) (T : Int) (d : ℚ) (prio : Bool)
    (p : Nat) (r : Delivery_Rider) (queue2 : List Nat)
    (hline : parse_order line = some (T, d, prio))
    (hassign : assign_loop e.riders d prio
      (update_returning_riders T e.active_deliveries e.waiting_queue).2 = some (p, r, queue2))
    (hcap : r.max_distance < 90000) :
    process_order line e = .ok (dispatch T d prio e)
    ∧ (dispatch T d prio e).riders[p]? = some (r.add_distance d)
    ∧ (r.add_distance d).max_distance = r.max_distance
    ∧ (r.add_distance d).current_distance ≤ (r.add_distance d).max_distance := by
  obtain ⟨pre, post, _, _, hr, hok, _⟩ := assign_loop_some e.riders d prio _ p r queue2 hassign
  have hlt : p < e.riders.length := by
    rcases Nat.lt_or_ge p e.riders.length with h | h
    · exact h
    · rw [List.getElem?_eq_none h] at hr
      exact absurd hr (by simp)
  refine ⟨process_order_of_parse line e T d prio hline, ?_, rfl, ?_⟩
  · rw [dispatch_hit T d prio e p r queue2 hassign]
    exact List.getElem?_set_self hlt
  · unfold Delivery_Rider.can_take_order at hok
    by_cases h3 : r.current_distance + d * 2 > r.max_distance
    · simp [hcap, h3] at hok
    · simpa [Delivery_Rider.add_distance] using h3

/-- Witness of C2: the bike of tests.cpp (cap 10.0) with mileage 4.0 takes the order of
distance 2.0 and is left with mileage 8.0. -/
theorem assigned_within_cap_witness :
    process_order "10.00:2.0:Standard" small_cap_engine =
      .ok (dispatch 600 2 false small_cap_engine)
    ∧ (dispatch 600 2 false small_cap_engine).riders[0]? =
        some (((Bicycle_Rider "Bike1" 10 10).add_distance 2).add_distance 2)
    ∧ (((Bicycle_Rider "Bike1" 10 10).add_distance 2).add_distance 2).max_distance =
        ((Bicycle_Rider "Bike1" 10 10).add_distance 2).max_distance
    ∧ (((Bicycle_Rider "Bike1" 10 10).add_distance 2).add_distance 2).current_distance ≤
        (((Bicycle_Rider "Bike1" 10 10).add_distance 2).add_distance 2).max_distance :=
  assigned_within_cap "10.00:2.0:Standard" small_cap_engine 600 2 false 0
    ((Bicycle_Rider "Bike1" 10 10).add_distance 2) [] (by decide!) (by decide!) (by decide!)

/-! ## Exclusive ownership -/

/-- Reconciliation moves pointers from the registry to the queue and loses none. -/
theorem update_returning_riders_perm (T : Int) (active : List ActiveDelivery)
    (queue : List Nat) :
    List.Perm
      ((update_returning_riders T active queue).2 ++
        (update_returning_riders T active queue).1.map ActiveDelivery.rider)
      (queue ++ active.map ActiveDelivery.rider) := by
  rw [update_returning_riders_eq]
  show List.Perm
    ((queue ++ (active.filter (fun a => decide (a.return_time ≤ T))).map ActiveDelivery.rider)
      ++ (active.filter (fun a => decide (T < a.return_time))).map ActiveDelivery.rider) _
  rw [List.append_assoc]
  refine List.Perm.append_left queue ?_
  rw [← List.map_append]
  refine List.Perm.map _ ?_
  have hk : active.filter (fun a => decide (T < a.return_time)) =
      active.filter (fun a => !(decide (a.return_time ≤ T))) := by
    apply List.filter_congr
    intro a _
    by_cases h : a.return_time ≤ T
    · simp [h, not_lt.mpr h]
    · simp [h, not_le.mp h]
  rw [hk]
  exact List.filter_append_perm _ active

/-- One order permutes the pointers held by the two containers and keeps the pool's size. -/
theorem dispatch_owners (T : Int) (d : ℚ) (prio : Bool) (e : Engine) :
    List.Perm (owners (dispatch T d prio e)) (owners e)
    ∧ (dispatch T d prio e).riders.length = e.riders.length := by
  have hperm := update_returning_riders_perm T e.active_deliveries e.waiting_queue
  cases ha : assign_loop e.riders d prio
      (update_returning_riders T e.active_deliveries e.waiting_queue).2 with
  | none =>
    rw [dispatch_miss T d prio e ha]
    exact ⟨hperm, rfl⟩
  | some t =>
    obtain ⟨p, r, queue2⟩ := t
    obtain ⟨pre, post, hq, hq2, _, _, _⟩ := assign_loop_some e.riders d prio _ p r queue2 ha
    rw [dispatch_hit T d prio e p r queue2 ha]
    refine ⟨?_, by simp⟩
    refine List.Perm.trans ?_ hperm
    rw [hq, hq2]
    simp only [owners, List.map_append, List.map_cons, List.map_nil, List.append_assoc]
    refine List.Perm.append_left pre ?_
    simp only [List.cons_append]
    rw [← List.append_assoc]
    exact List.perm_append_singleton p _

/-- A call of `process_order` that returns has permuted the pointers of the containers. -/
theorem process_order_owners (line : String) (e e1 : Engine)
    (h : process_order line e = .ok e1) :
    List.Perm (owners e1) (owners e) ∧ e1.riders.length = e.riders.length := by
  unfold process_order at h
  split at h
  · next time_str dist_str type hs =>
    cases ht : to_minutes time_str with
    | error x => simp [ht] at h
    | ok t =>
      cases hd : stod dist_str with
      | error x => simp [ht, hd] at h
      | ok dd =>
        simp only [ht, hd, Except.ok.injEq] at h
        rw [← h]
        exact dispatch_owners t dd _ e
  · simp only [Except.ok.injEq] at h
    rw [← h]
    exact ⟨List.Perm.refl _, rfl⟩

/-- A run of `process_order` calls that returns has permuted the pointers. -/
theorem process_orders_owners (lines : List String) (e e1 : Engine)
    (h : process_orders lines e = .ok e1) :
    List.Perm (owners e1) (owners e) ∧ e1.riders.length = e.riders.length := by
  induction lines generalizing e with
  | nil =>
    simp only [process_orders, Except.ok.injEq] at h
    rw [← h]
    exact ⟨List.Perm.refl _, rfl⟩
  | cons line rest ih =>
    cases hl : process_order line e with
    | error x => simp [process_orders, hl] at h
    | ok e2 =>
      simp only [process_orders, hl] at h
      have h2 := ih e2 h
      have h1 := process_order_owners line e e2 hl
      exact ⟨h2.1.trans h1.1, h2.2.trans h1.2⟩

/-- C4: exclusive ownership. From the day boundary, after any sequence of `process_order`
calls (that returns), every rider of the pool is held exactly once by the queue and the
registry together: not by both, not by none, not twice. -/
theorem exclusive_ownership (e0 : Engine) (lines : List String) (e : Engine)
    (hrun : process_orders lines (day_boundary e0) = .ok e) (p : Nat)
    (hp : p < e0.riders.length) :
    e.waiting_queue.count p + (e.active_deliveries.map ActiveDelivery.rider).count p = 1 := by
  have h := (process_orders_owners lines (day_boundary e0) e hrun).1
  have hc := h.count_eq p
  simp only [owners, List.count_append, day_boundary, List.map_nil, List.count_nil,
    Nat.add_zero] at hc
  rw [hc]
  exact List.count_eq_one_of_mem (List.nodup_range _) (List.mem_range.mpr hp)

/-- Witness of C4: after two orders and a line of one field, Anne (pointer 0) is held once,
by the registry. -/
theorem exclusive_ownership_witness :
    process_orders ["10.30:2.5:Priority", "10.31:1.5:Standard", "no order"]
      (day_boundary initial_engine) = .ok two_out_engine
    ∧ two_out_engine.waiting_queue.count 0
        + (two_out_engine.active_deliveries.map ActiveDelivery.rider).count 0 = 1 :=
  ⟨by decide!,
   exclusive_ownership initial_engine
     ["10.30:2.5:Priority", "10.31:1.5:Standard", "no order"] two_out_engine
     (by decide!) 0 (by decide)⟩

/-! ## Malformed lines -/

/-- A line that does not split into exactly three fields is dropped: the call returns with
the engine unchanged. -/
theorem process_order_field_count (line : String) (e : Engine)
    (h : (split line ':').length ≠ 3) : process_order line e = .ok e := by
  unfold process_order
  split
  · next time_str dist_str type hs =>
    rw [hs] at h
    exact absurd rfl h
  · rfl

/-- C9 fails on the code: a line of three fields whose distance is `abc` makes
`std::stod` throw `invalid_argument`, and `process_order` does not return; the same holds
for a time field with a dot and no number (`std::stoi`). A line of two fields is dropped. -/
theorem process_order_unparseable_distance :
    process_order "10.30:abc:Standard" (day_boundary initial_engine) =
      .error .invalid_argument
    ∧ process_order "ab.cd:2.0:Standard" (day_boundary initial_engine) =
      .error .invalid_argument
    ∧ process_order "10.30:2.0" (day_boundary initial_engine) =
      .ok (day_boundary initial_engine) := by
  refine ⟨by decide!, by decide!, by decide!⟩

/-! ## Two orders at the same timestamp -/

/-- Reconciliation at time `T` of a registry whose entries all return after `T` moves
nothing. -/
theorem update_returning_riders_none_due (T : Int) (active : List ActiveDelivery)
    (queue : List Nat) (h : ∀ a ∈ active, T < a.return_time) :
    update_returning_riders T active queue = (active, queue) := by
  rw [update_returning_riders_eq]
  have h1 : active.filter (fun a => decide (T < a.return_time)) = active := by
    apply List.filter_eq_self.mpr
    intro a ha
    simpa using h a ha
  have h2 : active.filter (fun a => decide (a.return_time ≤ T)) = [] := by
    apply List.filter_eq_nil_iff.mpr
    intro a ha
    simpa using h a ha
  rw [h1, h2]
  simp

/-- C10 as stated fails: with the single moped Anne (speed 32) and two orders of distance
0.1 at 10.00, the round trip of 0.375 minutes rounds to 0, Anne is back in the queue at
10.00 and takes the second order too: two deliveries, no miss. The mileage is the double
0.4, four times the double nearest to 0.1. -/
theorem same_time_counterexample :
    can_take one_moped_engine.riders 0 (double_round (1 / 10)) false = true
    ∧ one_moped_engine.waiting_queue = [0]
    ∧ process_orders ["10.00:0.1:Standard", "10.00:0.1:Standard"] one_moped_engine =
      .ok { riders := [{ name := "Anne", vehicle_type := "Moped", speed := 32,
                         max_distance := DBL_MAX,
                         current_distance := 4 * double_round (1 / 10) }],
            waiting_queue := [],
            active_deliveries := [{ return_time := 600, rider := 0 }],
            stats := { total_deliveries := 2, total_money := 4, moped_deliveries := 2,
                       moped_money := 4, missed_orders := 0 } } := by
  refine ⟨by decide!, by decide!, by decide!⟩

/-- C10, amended: two lines that parse with the same timestamp `T`, processed one directly
after the other. If the queue after reconciliation is `pre ++ p :: post`, the rider `p`
points to accepts the first order, no other rider of the queue accepts the first or the
second order, and the rounded round-trip time of the first order is at least one minute,
then the first order is assigned to `p` and the second is a miss: `missed_orders` goes up by
one and the other statistics, the queue, the registry and the riders stay as the first order
left them. -/
theorem same_time_second_missed (l1 l2 : String) (e : Engine) (T : Int) (d1 d2 : ℚ)
    (p1 p2 : Bool) (pre post : List Nat) (p : Nat) (r : Delivery_Rider)
    (h1 : parse_order l1 = some (T, d1, p1)) (h2 : parse_order l2 = some (T, d2, p2))
    (hq : (update_returning_riders T e.active_deliveries e.waiting_queue).2 = pre ++ p :: post)
    (hr : e.riders[p]? = some r) (hok : r.can_take_order d1 p1 = true)
    (hothers1 : ∀ x ∈ pre ++ post, can_take e.riders x d1 p1 = false)
    (hothers2 : ∀ x ∈ pre ++ post, can_take e.riders x d2 p2 = false)
    (hdur : 1 ≤ std_round ((r.add_distance d1).calculate_time d1)) :
    process_order l1 e = .ok (dispatch T d1 p1 e)
    ∧ (dispatch T d1 p1 e).waiting_queue = pre ++ post
    ∧ (dispatch T d1 p1 e).active_deliveries =
        (update_returning_riders T e.active_deliveries e.waiting_queue).1 ++
          [{ return_time := T + std_round ((r.add_distance d1).calculate_time d1),
             rider := p }]
    ∧ (dispatch T d1 p1 e).stats.total_deliveries = e.stats.total_deliveries + 1
    ∧ process_order l2 (dispatch T d1 p1 e) =
        .ok { dispatch T d1 p1 e with
              stats := { (dispatch T d1 p1 e).stats with
                         missed_orders := (dispatch T d1 p1 e).stats.missed_orders + 1 } } := by
  have hpre : ∀ x ∈ pre, can_take e.riders x d1 p1 = false :=
    fun x hx => hothers1 x (List.mem_append_left post hx)
  have ha := assign_loop_hit e.riders d1 p1 pre post p r hpre hr hok
  rw [← hq] at ha
  have hd1 := dispatch_hit T d1 p1 e p r (pre ++ post) ha
  have hkept : ∀ a ∈ (update_returning_riders T e.active_deliveries e.waiting_queue).1,
      T < a.return_time := by
    rw [update_returning_riders_eq]
    intro a ha
    simpa using (List.mem_filter.mp ha).2
  have hall : ∀ a ∈ (dispatch T d1 p1 e).active_deliveries, T < a.return_time := by
    rw [hd1]
    intro a ha
    rcases List.mem_append.mp ha with h | h
    · exact hkept a h
    · rw [List.mem_singleton.mp h]
      show T < T + std_round ((r.add_distance d1).calculate_time d1)
      omega
  have hu2 := update_returning_riders_none_due T (dispatch T d1 p1 e).active_deliveries
    (dispatch T d1 p1 e).waiting_queue hall
  have hpt : can_take e.riders p d1 p1 = true := by
    simp [can_take, hr, hok]
  have hmiss : ∀ x ∈ (dispatch T d1 p1 e).waiting_queue,
      can_take (dispatch T d1 p1 e).riders x d2 p2 = false := by
    rw [hd1]
    intro x hx
    have hne : p ≠ x := by
      intro hpx
      rw [← hpx] at hx
      have := hothers1 p hx
      rw [hpt] at this
      exact absurd this (by simp)
    have := hothers2 x hx
    simpa [can_take, List.getElem?_set_ne hne] using this
  have ha2 : assign_loop (dispatch T d1 p1 e).riders d2 p2
      (update_returning_riders T (dispatch T d1 p1 e).active_deliveries
        (dispatch T d1 p1 e).waiting_queue).2 = none := by
    rw [hu2]
    exact assign_loop_miss _ d2 p2 _ hmiss
  have hd2 := dispatch_miss T d2 p2 (dispatch T d1 p1 e) ha2
  rw [hu2] at hd2
  refine ⟨process_order_of_parse l1 e T d1 p1 h1, by rw [hd1], by rw [hd1], ?_, ?_⟩
  · rw [hd1]
    simp only [DailyStats.record_delivery]
    split <;> rfl
  · rw [process_order_of_parse l2 (dispatch T d1 p1 e) T d2 p2 h2, hd2]

/-- Witness of C10: the single moped Anne and two orders at 10.00, of distance 10 (a round
trip of 37.5 minutes, rounded to 38) and of distance 1. -/
theorem same_time_second_missed_witness :
    process_order "10.00:10:Standard" one_moped_engine =
      .ok (dispatch 600 10 false one_moped_engine)
    ∧ (dispatch 600 10 false one_moped_engine).waiting_queue = [] ++ []
    ∧ (dispatch 600 10 false one_moped_engine).active_deliveries =
        (update_returning_riders 600 one_moped_engine.active_deliveries
          one_moped_engine.waiting_queue).1 ++
          [{ return_time :=
               600 + std_round (((Moped_Rider "Anne" 32).add_distance 10).calculate_time 10),
             rider := 0 }]
    ∧ (dispatch 600 10 false one_moped_engine).stats.total_deliveries =
        one_moped_engine.stats.total_deliveries + 1
    ∧ process_order "10.00:1:Priority" (dispatch 600 10 false one_moped_engine) =
        .ok { dispatch 600 10 false one_moped_engine with
              stats := { (dispatch 600 10 false one_moped_engine).stats with
                         missed_orders :=
                           (dispatch 600 10 false one_moped_engine).stats.missed_orders + 1 } } :=
  same_time_second_missed "10.00:10:Standard" "10.00:1:Priority" one_moped_engine 600 10 1
    false true [] [] 0 (Moped_Rider "Anne" 32) (by decide!) (by decide!) (by decide!)
    (by decide!) (by decide!) (by decide!) (by decide!) (by decide!)

/-! ## Trip time and return time -/

/-- The digits `bit_length` counts: `n` lies between the powers of two around it. -/
theorem bit_length_spec (fuel n : Nat) (hf : n ≤ fuel) (hn : n ≠ 0) :
    2 ^ (bit_length fuel n - 1) ≤ n ∧ n < 2 ^ bit_length fuel n := by
  induction fuel generalizing n with
  | zero => exact absurd (Nat.le_zero.mp hf) hn
  | succ fuel ih =>
    simp only [bit_length, hn, if_false, Nat.add_sub_cancel]
    by_cases h2 : n / 2 = 0
    · have h1 : n = 1 := by omega
      subst h1
      cases fuel <;> simp [bit_length]
    · have hle : n / 2 ≤ fuel := by omega
      obtain ⟨hlo, hhi⟩ := ih (n / 2) hle h2
      have hpos : 0 < bit_length fuel (n / 2) := by
        rcases Nat.eq_zero_or_pos (bit_length fuel (n / 2)) with h0 | h0
        · rw [h0] at hhi
          omega
        · exact h0
      constructor
      · have : bit_length fuel (n / 2) = (bit_length fuel (n / 2) - 1) + 1 := by omega
        rw [this, pow_succ]
        omega
      · rw [pow_succ]
        omega

/-- The exponent `binary_exponent` finds is not above the magnitude of `x`. -/
theorem binary_exponent_le (x : ℚ) (hx : x ≠ 0) : (2 : ℚ) ^ binary_exponent x ≤ |x| := by
  unfold binary_exponent
  simp only
  split
  · next h => exact h
  · have hnum : x.num.natAbs ≠ 0 := by
      simpa using Rat.num_ne_zero.mpr hx
    have hden : x.den ≠ 0 := x.den_nz
    obtain ⟨hlo, _⟩ := bit_length_spec x.num.natAbs x.num.natAbs (le_refl _) hnum
    obtain ⟨_, hhi⟩ := bit_length_spec x.den x.den (le_refl _) hden
    have hbn : 0 < bit_length x.num.natAbs x.num.natAbs := by
      rcases Nat.eq_zero_or_pos (bit_length x.num.natAbs x.num.natAbs) with h0 | h0
      · have := (bit_length_spec x.num.natAbs x.num.natAbs (le_refl _) hnum).2
        rw [h0] at this
        omega
      · exact h0
    have habs : |x| = (x.num.natAbs : ℚ) / (x.den : ℚ) := by
      have h1 : x = (x.num : ℚ) / (x.den : ℚ) := (Rat.num_div_den x).symm
      have hdpos : (0 : ℚ) < (x.den : ℚ) := by exact_mod_cast x.den_pos
      conv_lhs => rw [h1]
      rw [abs_div, abs_of_pos hdpos]
      congr 1
      rw [Nat.cast_natAbs, Int.cast_abs]
    rw [habs]
    have hdpos : (0 : ℚ) < (x.den : ℚ) := by exact_mod_cast x.den_pos
    rw [le_div_iff₀ hdpos]
    have e1 : ((bit_length x.num.natAbs x.num.natAbs : Int) - (bit_length x.den x.den : Int) - 1)
        = ((bit_length x.num.natAbs x.num.natAbs - 1 : Nat) : Int)
          - (bit_length x.den x.den : Int) := by
      omega
    rw [e1, zpow_sub₀ (by norm_num : (2 : ℚ) ≠ 0), zpow_natCast, zpow_natCast]
    have hlo' : ((2 : ℚ) ^ (bit_length x.num.natAbs x.num.natAbs - 1)) ≤ (x.num.natAbs : ℚ) := by
      exact_mod_cast hlo
    have hhi' : (x.den : ℚ) ≤ (2 : ℚ) ^ bit_length x.den x.den := by
      exact_mod_cast le_of_lt hhi
    have hppos : (0 : ℚ) < (2 : ℚ) ^ bit_length x.den x.den := by positivity
    calc (2 : ℚ) ^ (bit_length x.num.natAbs x.num.natAbs - 1) / 2 ^ bit_length x.den x.den
          * (x.den : ℚ)
        ≤ (2 : ℚ) ^ (bit_length x.num.natAbs x.num.natAbs - 1) / 2 ^ bit_length x.den x.den
          * 2 ^ bit_length x.den x.den := by
          apply mul_le_mul_of_nonneg_left hhi'
          positivity
      _ = (2 : ℚ) ^ (bit_length x.num.natAbs x.num.natAbs - 1) := by
          field_simp
      _ ≤ (x.num.natAbs : ℚ) := hlo'

/-- Rounding to the nearest integer moves a value by at most one half. -/
theorem round_half_even_error (q : ℚ) : |(round_half_even q : ℚ) - q| ≤ 1 / 2 := by
  have h1 : (⌊q⌋ : ℚ) ≤ q := Int.floor_le q
  have h2 : q < (⌊q⌋ : ℚ) + 1 := Int.lt_floor_add_one q
  unfold round_half_even
  split_ifs with ha hb hc
  · rw [abs_le]
    constructor <;> linarith
  · rw [abs_le]
    push_cast
    constructor <;> linarith
  · rw [abs_le]
    push_cast at *
    constructor <;> linarith
  · rw [abs_le]
    push_cast at *
    constructor <;> linarith

/-- Rounding to the nearest integer keeps a value that is not negative so. -/
theorem round_half_even_nonneg (q : ℚ) (hq : 0 ≤ q) : 0 ≤ round_half_even q := by
  have h0 : 0 ≤ ⌊q⌋ := Int.floor_nonneg.mpr hq
  unfold round_half_even
  split_ifs <;> omega

/-- The double nearest to a value that is not negative is not negative. -/
theorem double_round_nonneg (x : ℚ) (hx : 0 ≤ x) : 0 ≤ double_round x := by
  unfold double_round
  split
  · exact le_refl 0
  · have hp : (0 : ℚ) < 2 ^ max (binary_exponent x - 52) (-1074) := by positivity
    have hq : 0 ≤ x / 2 ^ max (binary_exponent x - 52) (-1074) := div_nonneg hx (le_of_lt hp)
    have hr := round_half_even_nonneg _ hq
    have hr' : (0 : ℚ) ≤ (round_half_even (x / 2 ^ max (binary_exponent x - 52) (-1074)) : ℚ) := by
      exact_mod_cast hr
    exact mul_nonneg hr' (le_of_lt hp)

/-- The rounding error of `double_round`: at most the relative error `2 ^ (-53)`, or the
absolute error `2 ^ (-1075)` of the smallest doubles. -/
theorem double_round_error (x : ℚ) :
    |double_round x - x| ≤ 2 ^ (-53 : Int) * |x| + 2 ^ (-1075 : Int) := by
  unfold double_round
  split
  · next h0 =>
    rw [h0]
    norm_num
  · next hx =>
    have hp : (0 : ℚ) < 2 ^ max (binary_exponent x - 52) (-1074) := by positivity
    have herr := round_half_even_error (x / 2 ^ max (binary_exponent x - 52) (-1074))
    have hmul : |(round_half_even (x / 2 ^ max (binary_exponent x - 52) (-1074)) : ℚ)
        * 2 ^ max (binary_exponent x - 52) (-1074) - x|
        ≤ 1 / 2 * 2 ^ max (binary_exponent x - 52) (-1074) := by
      have e : (round_half_even (x / 2 ^ max (binary_exponent x - 52) (-1074)) : ℚ)
          * 2 ^ max (binary_exponent x - 52) (-1074) - x
          = ((round_half_even (x / 2 ^ max (binary_exponent x - 52) (-1074)) : ℚ)
              - x / 2 ^ max (binary_exponent x - 52) (-1074))
            * 2 ^ max (binary_exponent x - 52) (-1074) := by
        field_simp
      rw [e, abs_mul, abs_of_pos hp]
      exact mul_le_mul_of_nonneg_right herr (le_of_lt hp)
    refine le_trans hmul ?_
    have hk := binary_exponent_le x hx
    rcases le_total (binary_exponent x - 52) (-1074) with hcase | hcase
    · rw [max_eq_right hcase]
      have hnn : (0 : ℚ) ≤ 2 ^ (-53 : Int) * |x| := by positivity
      have e : (1 / 2 : ℚ) * 2 ^ (-1074 : Int) = 2 ^ (-1075 : Int) := by
        rw [show (-1075 : Int) = -1074 - 1 by norm_num, zpow_sub₀ (by norm_num : (2 : ℚ) ≠ 0)]
        simp
        ring
      rw [e]
      linarith
    · rw [max_eq_left hcase]
      have hnn : (0 : ℚ) ≤ 2 ^ (-1075 : Int) := by positivity
      have e : (1 / 2 : ℚ) * 2 ^ (binary_exponent x - 52)
          = 2 ^ (-53 : Int) * 2 ^ binary_exponent x := by
        rw [show binary_exponent x - 52 = binary_exponent x + (-52) by ring,
          zpow_add₀ (by norm_num : (2 : ℚ) ≠ 0)]
        norm_num
        ring
      rw [e]
      have : (2 : ℚ) ^ (-53 : Int) * 2 ^ binary_exponent x ≤ 2 ^ (-53 : Int) * |x| :=
        mul_le_mul_of_nonneg_left hk (by positivity)
      linarith

/-- The rounding error of `calculate_time` against the exact `120 * d / s`, for a speed
`s > 0`: three roundings, at most a relative error of `2 ^ (-51)` and `2 ^ (-1068)`. -/
theorem calculate_time_error (r : Delivery_Rider) (d : ℚ) (hs : 0 < r.speed) :
    |r.calculate_time d - 120 * d / (r.speed : ℚ)|
      ≤ 2 ^ (-51 : Int) * |120 * d / (r.speed : ℚ)| + 2 ^ (-1068 : Int) := by
  have hS1 : (1 : ℚ) ≤ (r.speed : ℚ) := by exact_mod_cast hs
  have hSpos : (0 : ℚ) < (r.speed : ℚ) := lt_of_lt_of_le one_pos hS1
  have ha := double_round_error (d * 2)
  have hb := double_round_error (double_round (d * 2) / (r.speed : ℚ))
  have hc := double_round_error (double_round (double_round (d * 2) / (r.speed : ℚ)) * 60)
  have hη : (0 : ℚ) ≤ 2 ^ (-1075 : Int) := by positivity
  have hη' : (2 : ℚ) ^ (-1068 : Int) = 128 * 2 ^ (-1075 : Int) := by
    rw [show (-1068 : Int) = 7 + (-1075) by norm_num, zpow_add₀ (by norm_num : (2 : ℚ) ≠ 0)]
    norm_num
  have hu : (2 : ℚ) ^ (-53 : Int) = 1 / 9007199254740992 := by norm_num [zpow_neg]
  have hu' : (2 : ℚ) ^ (-51 : Int) = 1 / 2251799813685248 := by norm_num [zpow_neg]
  rw [hu] at ha hb hc
  rw [hη', hu']
  generalize (2 : ℚ) ^ (-1075 : Int) = η at ha hb hc hη ⊢
  unfold Delivery_Rider.calculate_time
  simp only
  generalize double_round (d * 2) = a at ha hb hc ⊢
  generalize double_round (a / (r.speed : ℚ)) = b at hb hc ⊢
  generalize double_round (b * 60) = c at hc ⊢
  -- the exact quotient and the distances to it
  have hx0 : 0 ≤ |d * 2| / (r.speed : ℚ) := div_nonneg (abs_nonneg _) (le_of_lt hSpos)
  have e1 : |a / (r.speed : ℚ) - d * 2 / (r.speed : ℚ)|
      ≤ 1 / 9007199254740992 * (|d * 2| / (r.speed : ℚ)) + η := by
    rw [← sub_div, abs_div, abs_of_pos hSpos]
    have h1 : |a - d * 2| / (r.speed : ℚ)
        ≤ (1 / 9007199254740992 * |d * 2| + η) / (r.speed : ℚ) :=
      div_le_div_of_nonneg_right ha (le_of_lt hSpos)
    have h2 : η / (r.speed : ℚ) ≤ η := div_le_self hη hS1
    have h3 : (1 / 9007199254740992 * |d * 2| + η) / (r.speed : ℚ)
        = 1 / 9007199254740992 * (|d * 2| / (r.speed : ℚ)) + η / (r.speed : ℚ) := by
      ring
    linarith
  have hA : |a / (r.speed : ℚ)| ≤ |d * 2| / (r.speed : ℚ)
      + (1 / 9007199254740992 * (|d * 2| / (r.speed : ℚ)) + η) := by
    have h1 := abs_sub_abs_le_abs_sub (a / (r.speed : ℚ)) (d * 2 / (r.speed : ℚ))
    have h2 : |d * 2 / (r.speed : ℚ)| = |d * 2| / (r.speed : ℚ) := by
      rw [abs_div, abs_of_pos hSpos]
    rw [h2] at h1
    linarith
  have hB : |b| ≤ |a / (r.speed : ℚ)| + (1 / 9007199254740992 * |a / (r.speed : ℚ)| + η) := by
    have h1 := abs_sub_abs_le_abs_sub b (a / (r.speed : ℚ))
    linarith
  have hb60 : |b * 60| = 60 * |b| := by
    rw [abs_mul]
    norm_num
    ring
  have hX : |120 * d / (r.speed : ℚ)| = 60 * (|d * 2| / (r.speed : ℚ)) := by
    rw [abs_div, abs_of_pos hSpos, abs_mul, abs_mul]
    norm_num
    ring
  have hsplit : c - 120 * d / (r.speed : ℚ)
      = (c - b * 60) + (60 * (b - a / (r.speed : ℚ))
        + 60 * (a / (r.speed : ℚ) - d * 2 / (r.speed : ℚ))) := by
    ring
  have habs : |c - 120 * d / (r.speed : ℚ)|
      ≤ |c - b * 60| + (60 * |b - a / (r.speed : ℚ)|
        + 60 * |a / (r.speed : ℚ) - d * 2 / (r.speed : ℚ)|) := by
    rw [hsplit]
    refine le_trans (abs_add _ _) ?_
    refine add_le_add_left ?_ _
    refine le_trans (abs_add _ _) ?_
    rw [abs_mul, abs_mul]
    norm_num
  rw [hb60] at hc
  rw [hX]
  have hA0 := abs_nonneg (a / (r.speed : ℚ))
  have hB0 := abs_nonneg b
  linarith

/-- For a value that is not negative `std_round` rounds to the nearest integer, halves up. -/
theorem std_round_nonneg (x : ℚ) (hx : 0 ≤ x) : std_round x = ⌊x + 1 / 2⌋ := by
  simp [std_round, hx]

/-- The trip time of a distance that is not negative, at a speed above 0, is not negative. -/
theorem calculate_time_nonneg (r : Delivery_Rider) (d : ℚ) (hd : 0 ≤ d) (hs : 0 < r.speed) :
    0 ≤ r.calculate_time d := by
  have hSpos : (0 : ℚ) < (r.speed : ℚ) := by exact_mod_cast hs
  unfold Delivery_Rider.calculate_time
  simp only
  apply double_round_nonneg
  apply mul_nonneg _ (by norm_num)
  apply double_round_nonneg
  apply div_nonneg _ (le_of_lt hSpos)
  apply double_round_nonneg
  exact mul_nonneg hd (by norm_num)

/-- C12 as stated fails: the moped of speed 24 takes the order of 10.00 and distance 24.5;
the source computes the trip time 122.49999999999999 (49 / 24 is rounded before it is
multiplied by 60) and records the return time 600 + 122, where `120 * d / s` is 122.5 and
rounds to 123. -/
theorem return_time_counterexample :
    process_order "10.00:24.5:Standard" amy_engine =
      .ok { riders := [{ name := "Amy", vehicle_type := "Moped", speed := 24,
                         max_distance := DBL_MAX, current_distance := 49 }],
            waiting_queue := [],
            active_deliveries := [{ return_time := 722, rider := 0 }],
            stats := { total_deliveries := 1, total_money := 2, moped_deliveries := 1,
                       moped_money := 2 } }
    ∧ (Moped_Rider "Amy" 24).calculate_time (49 / 2) = 8620171161763839 / 70368744177664
    ∧ (600 : Int) + ⌊(120 * (49 / 2) / 24 : ℚ) + 1 / 2⌋ = 723 := by
  refine ⟨by decide!, by decide!, by decide!⟩

/-- C12, amended: when `process_order` assigns a line that parses, of timestamp `T` and
distance `d ≥ 0`, to a rider of speed `s > 0`, and the rounded trip time fits an `int`, the
registry after reconciliation gets exactly one entry more, at its end: the assigned rider
with return time `T + r`, where `r` is the double `calculate_time d` (the source's
`(d * 2 / s) * 60`, each operation rounded to the nearest double) rounded to the nearest
integer, halves up. The trip time is within a relative error of `2 ^ (-51)` of
`120 * d / s`. -/
theorem return_time_recorded (line : String) (e : Engine) (T : Int) (d : ℚ) (prio : Bool)
    (p : Nat) (r : Delivery_Rider) (queue2 : List Nat)
    (hline : parse_order line = some (T, d, prio))
    (hassign : assign_loop e.riders d prio
      (update_returning_riders T e.active_deliveries e.waiting_queue).2 = some (p, r, queue2))
    (hd : 0 ≤ d) (hs : 0 < r.speed)
    (hfit : std_round (r.calculate_time d) ≤ 2147483647) :
    process_order line e = .ok (dispatch T d prio e)
    ∧ (dispatch T d prio e).active_deliveries =
        (update_returning_riders T e.active_deliveries e.waiting_queue).1 ++
          [{ return_time := T + ⌊r.calculate_time d + 1 / 2⌋, rider := p }]
    ∧ r.calculate_time d =
        double_round (double_round (double_round (d * 2) / (r.speed : ℚ)) * 60)
    ∧ 0 ≤ ⌊r.calculate_time d + 1 / 2⌋
    ∧ ⌊r.calculate_time d + 1 / 2⌋ ≤ 2147483647
    ∧ |r.calculate_time d - 120 * d / (r.speed : ℚ)|
        ≤ 2 ^ (-51 : Int) * (120 * d / (r.speed : ℚ)) + 2 ^ (-1068 : Int) := by
  have hnn := calculate_time_nonneg r d hd hs
  have hround : std_round (r.calculate_time d) = ⌊r.calculate_time d + 1 / 2⌋ :=
    std_round_nonneg _ hnn
  have hsame : (r.add_distance d).calculate_time d = r.calculate_time d := rfl
  have hSpos : (0 : ℚ) < (r.speed : ℚ) := by exact_mod_cast hs
  have hexact : 0 ≤ 120 * d / (r.speed : ℚ) :=
    div_nonneg (mul_nonneg (by norm_num) hd) (le_of_lt hSpos)
  refine ⟨process_order_of_parse line e T d prio hline, ?_, rfl, ?_, ?_, ?_⟩
  · rw [dispatch_hit T d prio e p r queue2 hassign, hsame, hround]
  · apply Int.floor_nonneg.mpr
    linarith
  · rw [← hround]
    exact hfit
  · have h := calculate_time_error r d hs
    rw [abs_of_nonneg hexact] at h
    exact h

/-- Witness of C12: the moped of speed 30 takes the order of 10.00 and distance 10 and is
due back at 10.40. -/
theorem return_time_recorded_witness :
    (dispatch 600 10 false test_moped_engine).active_deliveries =
        (update_returning_riders 600 test_moped_engine.active_deliveries
          test_moped_engine.waiting_queue).1 ++
          [{ return_time := 600 + ⌊(Moped_Rider "Moped1" 30).calculate_time 10 + 1 / 2⌋,
             rider := 0 }]
    ∧ (dispatch 600 10 false test_moped_engine).active_deliveries =
        [{ return_time := 640, rider := 0 }] :=
  ⟨(return_time_recorded "10.00:10:Standard" test_moped_engine 600 10 false 0
      (Moped_Rider "Moped1" 30) [] (by decide!) (by decide!) (by norm_num) (by decide)
      (by decide!)).2.1,
   by decide!⟩

/-! ## Statistics, misses and mileage of one order -/

/-- C14: when `process_order` assigns a line that parses, the cost is 3 for a priority
order and 2 otherwise, whatever the distance; `total_deliveries` goes up by 1 and
`total_money` by the cost; for a Bicycle the bicycle counters go up by 1 and by the cost and
the moped counters stay, for any other rider it is the other way round; `missed_orders`
stays. -/
theorem assignment_statistics (line : String) (e : Engine) (T : Int) (d : ℚ) (prio : Bool)
    (p : Nat) (r : Delivery_Rider) (queue2 : List Nat)
    (hline : parse_order line = some (T, d, prio))
    (hassign : assign_loop e.riders d prio
      (update_returning_riders T e.active_deliveries e.waiting_queue).2 = some (p, r, queue2)) :
    process_order line e = .ok (dispatch T d prio e)
    ∧ (dispatch T d prio e).stats.total_deliveries = e.stats.total_deliveries + 1
    ∧ (dispatch T d prio e).stats.total_money =
        e.stats.total_money + (if prio = true then 3 else 2)
    ∧ (dispatch T d prio e).stats.missed_orders = e.stats.missed_orders
    ∧ (r.vehicle_type = "Bicycle" →
        (dispatch T d prio e).stats.bicycle_deliveries = e.stats.bicycle_deliveries + 1
        ∧ (dispatch T d prio e).stats.bicycle_money =
            e.stats.bicycle_money + (if prio = true then 3 else 2)
        ∧ (dispatch T d prio e).stats.moped_deliveries = e.stats.moped_deliveries
        ∧ (dispatch T d prio e).stats.moped_money = e.stats.moped_money)
    ∧ (r.vehicle_type ≠ "Bicycle" →
        (dispatch T d prio e).stats.moped_deliveries = e.stats.moped_deliveries + 1
        ∧ (dispatch T d prio e).stats.moped_money =
            e.stats.moped_money + (if prio = true then 3 else 2)
        ∧ (dispatch T d prio e).stats.bicycle_deliveries = e.stats.bicycle_deliveries
        ∧ (dispatch T d prio e).stats.bicycle_money = e.stats.bicycle_money) := by
  have hcost : (if prio = true then COST_PRIORITY else COST_STANDARD) =
      (if prio = true then (3 : ℚ) else 2) := rfl
  have hv : (r.add_distance d).get_vehicle_type = r.vehicle_type := rfl
  refine ⟨process_order_of_parse line e T d prio hline, ?_⟩
  rw [dispatch_hit T d prio e p r queue2 hassign, hcost, hv]
  by_cases hb : r.vehicle_type = "Bicycle"
  · simp [DailyStats.record_delivery, hb]
  · simp [DailyStats.record_delivery, hb]

/-- Witness of C14: the priority order of 10.32 goes to the moped James and costs 3. -/
theorem assignment_statistics_witness :
    (dispatch 632 (3 / 2) true two_out_engine).stats.total_deliveries =
        two_out_engine.stats.total_deliveries + 1
    ∧ (dispatch 632 (3 / 2) true two_out_engine).stats.total_money =
        two_out_engine.stats.total_money + (if true = true then 3 else 2)
    ∧ (dispatch 632 (3 / 2) true two_out_engine).stats.missed_orders =
        two_out_engine.stats.missed_orders
    ∧ (dispatch 632 (3 / 2) true two_out_engine).stats.moped_deliveries =
        two_out_engine.stats.moped_deliveries + 1 :=
  (fun h => ⟨h.2.1, h.2.2.1, h.2.2.2.1, (h.2.2.2.2.2 (by decide)).1⟩)
    (assignment_statistics "10.32:1.5:Priority" two_out_engine 632 (3 / 2) true 4
      (Moped_Rider "James" 25) [2, 3, 5, 6, 7] (by decide!) (by decide!))

/-- C15: when no rider of the queue left by reconciliation accepts a line that parses,
`process_order` returns, `missed_orders` goes up by 1 and nothing else changes beyond
reconciliation: the other statistics and the riders are the old ones, the queue and the
registry are the ones `update_returning_riders` produced. -/
theorem missed_order_frame (line : String) (e : Engine) (T : Int) (d : ℚ) (prio : Bool)
    (hline : parse_order line = some (T, d, prio))
    (hnone : ∀ x ∈ (update_returning_riders T e.active_deliveries e.waiting_queue).2,
      can_take e.riders x d prio = false) :
    process_order line e =
      .ok { riders := e.riders,
            waiting_queue :=
              (update_returning_riders T e.active_deliveries e.waiting_queue).2,
            active_deliveries :=
              (update_returning_riders T e.active_deliveries e.waiting_queue).1,
            stats := { total_deliveries := e.stats.total_deliveries,
                       total_money := e.stats.total_money,
                       bicycle_deliveries := e.stats.bicycle_deliveries,
                       bicycle_money := e.stats.bicycle_money,
                       moped_deliveries := e.stats.moped_deliveries,
                       moped_money := e.stats.moped_money,
                       missed_orders := e.stats.missed_orders + 1 } } := by
  have ha := assign_loop_miss e.riders d prio _ hnone
  rw [process_order_of_parse line e T d prio hline, dispatch_miss T d prio e ha]

/-- Witness of C15: the only rider is a bicycle, which refuses the priority order. -/
theorem missed_order_frame_witness :
    process_order "10.00:1:Priority" small_cap_engine =
      .ok { riders := small_cap_engine.riders,
            waiting_queue :=
              (update_returning_riders 600 small_cap_engine.active_deliveries
                small_cap_engine.waiting_queue).2,
            active_deliveries :=
              (update_returning_riders 600 small_cap_engine.active_deliveries
                small_cap_engine.waiting_queue).1,
            stats := { total_deliveries := small_cap_engine.stats.total_deliveries,
                       total_money := small_cap_engine.stats.total_money,
                       bicycle_deliveries := small_cap_engine.stats.bicycle_deliveries,
                       bicycle_money := small_cap_engine.stats.bicycle_money,
                       moped_deliveries := small_cap_engine.stats.moped_deliveries,
                       moped_money := small_cap_engine.stats.moped_money,
                       missed_orders := small_cap_engine.stats.missed_orders + 1 } } :=
  missed_order_frame "10.00:1:Priority" small_cap_engine 600 1 true (by decide!) (by decide!)

/-- C17: the day reset is total and idempotent. After the day boundary every rider has
mileage 0 (and is otherwise the rider it was), every statistic is 0, the registry is empty
and the queue holds the pointers of the pool once each in construction order; a second
`reset_daily_mileage`, a second `DailyStats::reset` and a second day boundary change
nothing. -/
theorem day_boundary_resets (e : Engine) :
    (∀ r ∈ (day_boundary e).riders, r.current_distance = 0)
    ∧ (day_boundary e).riders.map
          (fun r => (r.name, r.vehicle_type, r.speed, r.max_distance)) =
        e.riders.map (fun r => (r.name, r.vehicle_type, r.speed, r.max_distance))
    ∧ (day_boundary e).stats =
        { total_deliveries := 0, total_money := 0, bicycle_deliveries := 0,
          bicycle_money := 0, moped_deliveries := 0, moped_money := 0, missed_orders := 0 }
    ∧ (day_boundary e).active_deliveries = []
    ∧ (day_boundary e).waiting_queue = List.range e.riders.length
    ∧ (∀ r : Delivery_Rider, r.reset_daily_mileage.reset_daily_mileage = r.reset_daily_mileage)
    ∧ (∀ s : DailyStats, s.reset.reset = s.reset)
    ∧ day_boundary (day_boundary e) = day_boundary e := by
  refine ⟨?_, ?_, rfl, rfl, rfl, fun _ => rfl, fun _ => rfl, ?_⟩
  · intro r hr
    simp only [day_boundary, List.mem_map] at hr
    obtain ⟨r0, _, h0⟩ := hr
    rw [← h0]
    rfl
  · simp [day_boundary, Delivery_Rider.reset_daily_mileage, Function.comp_def]
  · simp [day_boundary, Delivery_Rider.reset_daily_mileage, DailyStats.reset,
      Function.comp_def]

/-! ## Statistics over a run of orders -/

/-- A call of `process_order` that returns either dropped the line or dispatched it. -/
theorem process_order_cases (line : String) (e e1 : Engine)
    (h : process_order line e = .ok e1) :
    (parse_order line = none ∧ e1 = e)
    ∨ ∃ T d prio, parse_order line = some (T, d, prio) ∧ e1 = dispatch T d prio e := by
  unfold process_order at h
  unfold parse_order
  split at h
  · next time_str dist_str type hs =>
    cases ht : to_minutes time_str with
    | error x => simp [ht] at h
    | ok t =>
      cases hd : stod dist_str with
      | error x => simp [ht, hd] at h
      | ok dd =>
        simp only [ht, hd, Except.ok.injEq] at h
        exact Or.inr ⟨t, dd, type == "Priority", rfl, h.symm⟩
  · simp only [Except.ok.injEq] at h
    exact Or.inl ⟨rfl, h.symm⟩

/-- The statistics after a delivery by a Bicycle. -/
theorem record_delivery_bicycle (st : DailyStats) (v : String) (cost : ℚ)
    (hb : v = "Bicycle") :
    st.record_delivery v cost =
      { total_deliveries := st.total_deliveries + 1, total_money := st.total_money + cost,
        bicycle_deliveries := st.bicycle_deliveries + 1,
        bicycle_money := st.bicycle_money + cost,
        moped_deliveries := st.moped_deliveries, moped_money := st.moped_money,
        missed_orders := st.missed_orders } := by
  subst hb
  simp [DailyStats.record_delivery]

/-- The statistics after a delivery by a rider that is not a Bicycle. -/
theorem record_delivery_other (st : DailyStats) (v : String) (cost : ℚ)
    (hb : v ≠ "Bicycle") :
    st.record_delivery v cost =
      { total_deliveries := st.total_deliveries + 1, total_money := st.total_money + cost,
        bicycle_deliveries := st.bicycle_deliveries, bicycle_money := st.bicycle_money,
        moped_deliveries := st.moped_deliveries + 1,
        moped_money := st.moped_money + cost,
        missed_orders := st.missed_orders } := by
  simp [DailyStats.record_delivery, hb]

/-- The statistics after one dispatched order: a miss, or a delivery by a rider that
accepted the order. -/
theorem dispatch_stats (T : Int) (d : ℚ) (prio : Bool) (e : Engine) :
    (dispatch T d prio e).stats = { e.stats with missed_orders := e.stats.missed_orders + 1 }
    ∨ ∃ r : Delivery_Rider, r.can_take_order d prio = true
        ∧ (dispatch T d prio e).stats =
            e.stats.record_delivery r.vehicle_type
              (if prio = true then COST_PRIORITY else COST_STANDARD) := by
  cases ha : assign_loop e.riders d prio
      (update_returning_riders T e.active_deliveries e.waiting_queue).2 with
  | none =>
    rw [dispatch_miss T d prio e ha]
    exact Or.inl rfl
  | some t =>
    obtain ⟨p, r, queue2⟩ := t
    obtain ⟨_, _, _, _, _, hok, _⟩ := assign_loop_some e.riders d prio _ p r queue2 ha
    rw [dispatch_hit T d prio e p r queue2 ha]
    exact Or.inr ⟨r, hok, rfl⟩

/-- A property of the statistics that a miss and a delivery by an accepting rider both keep
holds after every run that returns. -/
theorem process_orders_stats (P : DailyStats → Prop)
    (hmiss : ∀ st : DailyStats, P st → P { st with missed_orders := st.missed_orders + 1 })
    (hrec : ∀ (st : DailyStats) (r : Delivery_Rider) (d : ℚ) (prio : Bool),
      r.can_take_order d prio = true → P st →
      P (st.record_delivery r.vehicle_type
        (if prio = true then COST_PRIORITY else COST_STANDARD)))
    (lines : List String) (s e : Engine) (hrun : process_orders lines s = .ok e)
    (h0 : P s.stats) : P e.stats := by
  induction lines generalizing s with
  | nil =>
    simp only [process_orders, Except.ok.injEq] at hrun
    rw [← hrun]
    exact h0
  | cons line rest ih =>
    cases hl : process_order line s with
    | error x => simp [process_orders, hl] at hrun
    | ok s1 =>
      simp only [process_orders, hl] at hrun
      apply ih s1 hrun
      rcases process_order_cases line s s1 hl with ⟨_, hsame⟩ | ⟨T, d, prio, _, hdisp⟩
      · rw [hsame]
        exact h0
      · rw [hdisp]
        rcases dispatch_stats T d prio s with hm | ⟨r, hok, hr⟩
        · rw [hm]
          exact hmiss _ h0
        · rw [hr]
          exact hrec _ r d prio hok h0

/-- One dispatched order adds exactly one to deliveries plus misses. -/
theorem dispatch_consumes (T : Int) (d : ℚ) (prio : Bool) (e : Engine) :
    (dispatch T d prio e).stats.total_deliveries + (dispatch T d prio e).stats.missed_orders =
      e.stats.total_deliveries + e.stats.missed_orders + 1 := by
  rcases dispatch_stats T d prio e with hm | ⟨r, _, hr⟩
  · rw [hm]
    simp only
    ring
  · rw [hr]
    by_cases hb : r.vehicle_type = "Bicycle"
    · rw [record_delivery_bicycle _ _ _ hb]
      dsimp only
      ring
    · rw [record_delivery_other _ _ _ hb]
      dsimp only
      ring

/-- A run of lines that all parse returns, and adds their number to deliveries plus
misses. -/
theorem process_orders_consumes (lines : List String) (s : Engine)
    (hwf : ∀ l ∈ lines, parse_order l ≠ none) :
    ∃ e, process_orders lines s = .ok e
      ∧ e.stats.total_deliveries + e.stats.missed_orders =
          s.stats.total_deliveries + s.stats.missed_orders + (lines.length : Int) := by
  induction lines generalizing s with
  | nil => exact ⟨s, rfl, by simp⟩
  | cons line rest ih =>
    have hl := hwf line (List.mem_cons_self line rest)
    cases hp : parse_order line with
    | none => exact absurd hp hl
    | some o =>
      obtain ⟨T, d, prio⟩ := o
      have h1 := process_order_of_parse line s T d prio hp
      obtain ⟨e, he, hsum⟩ := ih (dispatch T d prio s)
        (fun l hlm => hwf l (List.mem_cons_of_mem line hlm))
      refine ⟨e, by simp only [process_orders, h1, he], ?_⟩
      rw [hsum, dispatch_consumes]
      simp only [List.length_cons]
      push_cast
      ring

/-- C18: every line that parses is consumed exactly once, as an assignment or as a miss.
One `process_order` call on such a line returns and adds exactly 1 to
`total_deliveries + missed_orders`; a run of `n` such lines from the day boundary returns
with `total_deliveries + missed_orders = n`. -/
theorem orders_consumed_once (e0 : Engine) (lines : List String)
    (hwf : ∀ l ∈ lines, parse_order l ≠ none) :
    (∀ l ∈ lines, ∀ s : Engine, ∃ s1, process_order l s = .ok s1
        ∧ s1.stats.total_deliveries + s1.stats.missed_orders =
            s.stats.total_deliveries + s.stats.missed_orders + 1)
    ∧ ∃ e, process_orders lines (day_boundary e0) = .ok e
        ∧ e.stats.total_deliveries + e.stats.missed_orders = (lines.length : Int) := by
  constructor
  · intro l hl s
    cases hp : parse_order l with
    | none => exact absurd hp (hwf l hl)
    | some o =>
      obtain ⟨T, d, prio⟩ := o
      exact ⟨dispatch T d prio s, process_order_of_parse l s T d prio hp,
        dispatch_consumes T d prio s⟩
  · obtain ⟨e, he, hsum⟩ := process_orders_consumes lines (day_boundary e0) hwf
    refine ⟨e, he, ?_⟩
    rw [hsum]
    simp [day_boundary, DailyStats.reset]

/-- Witness of C18: three orders from the start of the day of `main`, the last one a
priority order that finds a moped. -/
theorem orders_consumed_once_witness :
    ∃ e, process_orders ["10.30:2.5:Priority", "10.31:1.5:Standard", "10.32:1.5:Priority"]
          (day_boundary initial_engine) = .ok e
      ∧ e.stats.total_deliveries + e.stats.missed_orders =
          ((["10.30:2.5:Priority", "10.31:1.5:Standard", "10.32:1.5:Priority"].length : Nat)
            : Int) :=
  (orders_consumed_once initial_engine
    ["10.30:2.5:Priority", "10.31:1.5:Standard", "10.32:1.5:Priority"] (by decide!)).2

/-- C19: from reset statistics, after any run of `process_order` calls that returns, the
deliveries and the money of the two vehicle classes add up to the totals. -/
theorem class_totals (s : Engine) (lines : List String) (e : Engine)
    (hrun : process_orders lines { s with stats := s.stats.reset } = .ok e) :
    e.stats.total_deliveries = e.stats.bicycle_deliveries + e.stats.moped_deliveries
    ∧ e.stats.total_money = e.stats.bicycle_money + e.stats.moped_money := by
  refine process_orders_stats
    (fun st => st.total_deliveries = st.bicycle_deliveries + st.moped_deliveries
      ∧ st.total_money = st.bicycle_money + st.moped_money)
    ?_ ?_ lines _ e hrun ?_
  · intro st h
    exact h
  · intro st r d prio _ h
    obtain ⟨h1, h2⟩ := h
    by_cases hb : r.vehicle_type = "Bicycle"
    · rw [record_delivery_bicycle _ _ _ hb]
      dsimp only
      constructor
      · rw [h1]; ring
      · rw [h2]; ring
    · rw [record_delivery_other _ _ _ hb]
      dsimp only
      constructor
      · rw [h1]; ring
      · rw [h2]; ring
  · simp [DailyStats.reset]

/-- Witness of C19: the two orders that lead to Anne and Jim being out. -/
theorem class_totals_witness :
    two_out_engine.stats.total_deliveries =
        two_out_engine.stats.bicycle_deliveries + two_out_engine.stats.moped_deliveries
    ∧ two_out_engine.stats.total_money =
        two_out_engine.stats.bicycle_money + two_out_engine.stats.moped_money :=
  class_totals (day_boundary initial_engine) ["10.30:2.5:Priority", "10.31:1.5:Standard"]
    two_out_engine (by decide!)

/-- C20: from reset statistics, after any run of `process_order` calls that returns, over
any pool, the bicycle money is 2 per bicycle delivery (a Bicycle never takes a priority
order) and the moped money lies between 2 and 3 per moped delivery. -/
theorem class_prices (s : Engine) (lines : List String) (e : Engine)
    (hrun : process_orders lines { s with stats := s.stats.reset } = .ok e) :
    e.stats.bicycle_money = 2 * (e.stats.bicycle_deliveries : ℚ)
    ∧ 2 * (e.stats.moped_deliveries : ℚ) ≤ e.stats.moped_money
    ∧ e.stats.moped_money ≤ 3 * (e.stats.moped_deliveries : ℚ) := by
  refine process_orders_stats
    (fun st => st.bicycle_money = 2 * (st.bicycle_deliveries : ℚ)
      ∧ 2 * (st.moped_deliveries : ℚ) ≤ st.moped_money
      ∧ st.moped_money ≤ 3 * (st.moped_deliveries : ℚ))
    ?_ ?_ lines _ e hrun ?_
  · intro st h
    exact h
  · intro st r d prio hok h
    obtain ⟨h1, h2, h3⟩ := h
    by_cases hb : r.vehicle_type = "Bicycle"
    · have hp : prio = false := by
        cases prio
        · rfl
        · simp [Delivery_Rider.can_take_order, hb] at hok
      rw [record_delivery_bicycle _ _ _ hb, hp]
      dsimp only
      refine ⟨?_, h2, h3⟩
      rw [h1]
      push_cast
      simp [COST_STANDARD]
      ring
    · rw [record_delivery_other _ _ _ hb]
      dsimp only
      have hc : (2 : ℚ) ≤ (if prio = true then COST_PRIORITY else COST_STANDARD)
          ∧ (if prio = true then COST_PRIORITY else COST_STANDARD) ≤ (3 : ℚ) := by
        cases prio <;> simp [COST_PRIORITY, COST_STANDARD] <;> norm_num
      refine ⟨h1, ?_, ?_⟩
      · push_cast
        linarith [hc.1]
      · push_cast
        linarith [hc.2]
  · simp [DailyStats.reset]

/-- Witness of C20: a priority and a standard order, both taken by mopeds: money 5. -/
theorem class_prices_witness :
    two_out_engine.stats.bicycle_money = 2 * (two_out_engine.stats.bicycle_deliveries : ℚ)
    ∧ 2 * (two_out_engine.stats.moped_deliveries : ℚ) ≤ two_out_engine.stats.moped_money
    ∧ two_out_engine.stats.moped_money ≤ 3 * (two_out_engine.stats.moped_deliveries : ℚ) :=
  class_prices (day_boundary initial_engine) ["10.30:2.5:Priority", "10.31:1.5:Standard"]
    two_out_engine (by decide!)

/-! ## A rider is out until its return time -/

/-- A pointer that reconciliation at time `T` puts into the queue, and that was not there,
comes from a registry entry that is due at `T`. -/
theorem mem_reconciled_queue (T : Int) (active : List ActiveDelivery) (queue : List Nat)
    (p : Nat) (hin : p ∈ (update_returning_riders T active queue).2) (hq : p ∉ queue) :
    ∃ a ∈ active, a.rider = p ∧ a.return_time ≤ T := by
  rw [update_returning_riders_eq] at hin
  rcases List.mem_append.mp hin with h | h
  · exact absurd h hq
  · obtain ⟨a, ha, hap⟩ := List.mem_map.mp h
    obtain ⟨hmem, hdue⟩ := List.mem_filter.mp ha
    exact ⟨a, hmem, hap, by simpa using hdue⟩

/-- The entries reconciliation leaves in the registry were there before. -/
theorem mem_reconciled_registry (T : Int) (active : List ActiveDelivery) (queue : List Nat)
    (a : ActiveDelivery) (ha : a ∈ (update_returning_riders T active queue).1) :
    a ∈ active := by
  rw [update_returning_riders_eq] at ha
  exact (List.mem_filter.mp ha).1

/-- One dispatched order at time `T`, for a rider `p` that is out with every registry
entry of its own returning at `R` or later: either `p` is still out in the same way, or
`R ≤ T`. -/
theorem dispatch_keeps_out (p : Nat) (R T : Int) (d : ℚ) (prio : Bool) (s : Engine)
    (hq : p ∉ s.waiting_queue)
    (ha : ∀ a ∈ s.active_deliveries, a.rider = p → R ≤ a.return_time) :
    (p ∉ (dispatch T d prio s).waiting_queue
      ∧ ∀ a ∈ (dispatch T d prio s).active_deliveries, a.rider = p → R ≤ a.return_time)
    ∨ R ≤ T := by
  by_cases hin : p ∈ (update_returning_riders T s.active_deliveries s.waiting_queue).2
  · obtain ⟨a, hmem, hap, hdue⟩ := mem_reconciled_queue T _ _ p hin hq
    exact Or.inr (le_trans (ha a hmem hap) hdue)
  · left
    have hkept : ∀ a ∈ (update_returning_riders T s.active_deliveries s.waiting_queue).1,
        a.rider = p → R ≤ a.return_time :=
      fun a h => ha a (mem_reconciled_registry T _ _ a h)
    cases hl : assign_loop s.riders d prio
        (update_returning_riders T s.active_deliveries s.waiting_queue).2 with
    | none =>
      rw [dispatch_miss T d prio s hl]
      exact ⟨hin, hkept⟩
    | some t =>
      obtain ⟨p0, r, queue2⟩ := t
      obtain ⟨pre, post, hsplit, hq2, _, _, _⟩ :=
        assign_loop_some s.riders d prio _ p0 r queue2 hl
      rw [dispatch_hit T d prio s p0 r queue2 hl]
      rw [hsplit] at hin
      have hne : p0 ≠ p := by
        intro h
        apply hin
        rw [h]
        simp
      constructor
      · show p ∉ queue2
        rw [hq2]
        intro h
        apply hin
        rcases List.mem_append.mp h with h1 | h1
        · exact List.mem_append_left _ h1
        · exact List.mem_append_right _ (List.mem_cons_of_mem _ h1)
      · intro a hmem hap
        rcases List.mem_append.mp hmem with h1 | h1
        · exact hkept a h1 hap
        · rw [List.mem_singleton.mp h1] at hap
          exact absurd hap hne

/-- The timestamps of a run, line by line. -/
theorem timestamps_cons (line : String) (rest : List String) :
    timestamps (line :: rest) =
      match parse_order line with
      | some o => o.1 :: timestamps rest
      | none => timestamps rest := by
  unfold timestamps
  cases h : parse_order line with
  | none => simp [List.filterMap_cons, h]
  | some o => simp [List.filterMap_cons, h]

/-- Over a run that returns, a rider that is out either stays out or some order of the run
has a timestamp at or after its return time. -/
theorem process_orders_keeps_out (p : Nat) (R : Int) (lines : List String) (s e : Engine)
    (hrun : process_orders lines s = .ok e) (hq : p ∉ s.waiting_queue)
    (ha : ∀ a ∈ s.active_deliveries, a.rider = p → R ≤ a.return_time) :
    (p ∉ e.waiting_queue ∧ ∀ a ∈ e.active_deliveries, a.rider = p → R ≤ a.return_time)
    ∨ ∃ T ∈ timestamps lines, R ≤ T := by
  induction lines generalizing s with
  | nil =>
    simp only [process_orders, Except.ok.injEq] at hrun
    rw [← hrun]
    exact Or.inl ⟨hq, ha⟩
  | cons line rest ih =>
    cases hl : process_order line s with
    | error x => simp [process_orders, hl] at hrun
    | ok s1 =>
      simp only [process_orders, hl] at hrun
      rcases process_order_cases line s s1 hl with ⟨hnone, hsame⟩ | ⟨T, d, prio, hp, hdisp⟩
      · rw [hsame] at hrun
        rw [timestamps_cons, hnone]
        exact ih s hrun hq ha
      · rw [timestamps_cons, hp]
        rcases dispatch_keeps_out p R T d prio s hq ha with ⟨hq1, ha1⟩ | hle
        · rw [← hdisp] at hq1 ha1
          rcases ih s1 hrun hq1 ha1 with h | ⟨T0, hT0, hle0⟩
          · exact Or.inl h
          · exact Or.inr ⟨T0, List.mem_cons_of_mem _ hT0, hle0⟩
        · exact Or.inr ⟨T, List.mem_cons_self _ _, hle⟩

/-- From the day boundary, the queue and the registry never hold a pointer twice. -/
theorem owners_nodup (e0 : Engine) (lines : List String) (e : Engine)
    (hrun : process_orders lines (day_boundary e0) = .ok e) : (owners e).Nodup := by
  have h := (process_orders_owners lines (day_boundary e0) e hrun).1
  rw [h.nodup_iff]
  simp [owners, day_boundary, List.nodup_range]

/-- C11: a rider is unavailable until its return time. In a run from the day boundary whose
dispatched timestamps never decrease, if `process_order` assigns the rider `p` at time `T1`,
recording the return time `R = T1 + round(calculate_time)`, and a later call assigns `p`
again at time `T2`, then `R ≤ T2`. -/
theorem unavailable_until_return (e0 : Engine) (before : List String) (line1 : String)
    (between : List String) (line2 : String) (s1 s3 : Engine) (T1 T2 : Int) (d1 d2 : ℚ)
    (p1 p2 : Bool) (p : Nat) (r1 r2 : Delivery_Rider) (queue1 queue2 : List Nat)
    (hmono : List.Pairwise (fun a b => a ≤ b)
      (timestamps (before ++ (line1 :: (between ++ [line2])))))
    (hrun1 : process_orders before (day_boundary e0) = .ok s1)
    (h1 : parse_order line1 = some (T1, d1, p1))
    (hassign1 : assign_loop s1.riders d1 p1
      (update_returning_riders T1 s1.active_deliveries s1.waiting_queue).2 =
        some (p, r1, queue1))
    (hrun2 : process_orders between (dispatch T1 d1 p1 s1) = .ok s3)
    (h2 : parse_order line2 = some (T2, d2, p2))
    (hassign2 : assign_loop s3.riders d2 p2
      (update_returning_riders T2 s3.active_deliveries s3.waiting_queue).2 =
        some (p, r2, queue2)) :
    ({ return_time := T1 + std_round ((r1.add_distance d1).calculate_time d1), rider := p }
        : ActiveDelivery) ∈ (dispatch T1 d1 p1 s1).active_deliveries
    ∧ T1 + std_round ((r1.add_distance d1).calculate_time d1) ≤ T2 := by
  have hd1 := dispatch_hit T1 d1 p1 s1 p r1 queue1 hassign1
  refine ⟨by rw [hd1]; simp, ?_⟩
  -- the state after the first assignment: `p` is out, with its one entry
  obtain ⟨pre, post, hsplit, hq1, _, _, _⟩ :=
    assign_loop_some s1.riders d1 p1 _ p r1 queue1 hassign1
  have hnd : ((update_returning_riders T1 s1.active_deliveries s1.waiting_queue).2 ++
      (update_returning_riders T1 s1.active_deliveries s1.waiting_queue).1.map
        ActiveDelivery.rider).Nodup :=
    (update_returning_riders_perm T1 s1.active_deliveries s1.waiting_queue).nodup_iff.mpr
      (owners_nodup e0 before s1 hrun1)
  rw [hsplit] at hnd
  have hnd1 : (p :: (pre ++ post ++
      (update_returning_riders T1 s1.active_deliveries s1.waiting_queue).1.map
        ActiveDelivery.rider)).Nodup := by
    refine (List.Perm.nodup_iff ?_).mp hnd
    rw [List.append_assoc, List.append_assoc]
    exact List.perm_middle
  have hnotin := (List.nodup_cons.mp hnd1).1
  have hq : p ∉ (dispatch T1 d1 p1 s1).waiting_queue := by
    rw [hd1, hq1]
    intro h
    exact hnotin (List.mem_append_left _ h)
  have ha : ∀ a ∈ (dispatch T1 d1 p1 s1).active_deliveries, a.rider = p →
      T1 + std_round ((r1.add_distance d1).calculate_time d1) ≤ a.return_time := by
    rw [hd1]
    intro a hmem hap
    rcases List.mem_append.mp hmem with h | h
    · exfalso
      apply hnotin
      apply List.mem_append_right
      rw [← hap]
      exact List.mem_map_of_mem _ h
    · rw [List.mem_singleton.mp h]
  -- the timestamps between the two assignments are at most `T2`
  have hts : ∀ T ∈ timestamps between, T ≤ T2 := by
    intro T hT
    have hsub : timestamps (before ++ (line1 :: (between ++ [line2]))) =
        timestamps before ++ (T1 :: (timestamps between ++ [T2])) := by
      simp [timestamps, List.filterMap_append, List.filterMap_cons, h1, h2]
    rw [hsub] at hmono
    have hm2 := (List.pairwise_append.mp hmono).2.1
    have hm3 := (List.pairwise_cons.mp hm2).2
    exact (List.pairwise_append.mp hm3).2.2 T hT T2 (by simp)
  rcases process_orders_keeps_out p _ between _ s3 hrun2 hq ha with ⟨hq3, ha3⟩ | ⟨T, hT, hle⟩
  · obtain ⟨pre2, post2, hsplit2, _, _, _, _⟩ :=
      assign_loop_some s3.riders d2 p2 _ p r2 queue2 hassign2
    have hin : p ∈ (update_returning_riders T2 s3.active_deliveries s3.waiting_queue).2 := by
      rw [hsplit2]
      simp
    obtain ⟨a, hmem, hap, hdue⟩ := mem_reconciled_queue T2 _ _ p hin hq3
    exact le_trans (ha3 a hmem hap) hdue
  · exact le_trans hle (hts T hT)

/-- Witness of C11: Anne takes the order of 10.00 and distance 10 (back at 10.38), the
priority order of 10.00 is missed, and Anne takes the order of 10.40. -/
theorem unavailable_until_return_witness :
    ({ return_time :=
         600 + std_round (((Moped_Rider "Anne" 32).add_distance 10).calculate_time 10),
       rider := 0 } : ActiveDelivery) ∈ (dispatch 600 10 false one_moped_engine).active_deliveries
    ∧ 600 + std_round (((Moped_Rider "Anne" 32).add_distance 10).calculate_time 10) ≤ 640 :=
  unavailable_until_return
    { riders := [Moped_Rider "Anne" 32], waiting_queue := [], active_deliveries := [],
      stats := {} }
    [] "10.00:10:Standard" ["10.00:1:Priority"] "10.40:1:Standard"
    one_moped_engine
    { riders := [(Moped_Rider "Anne" 32).add_distance 10], waiting_queue := [],
      active_deliveries := [{ return_time := 638, rider := 0 }],
      stats := { total_deliveries := 1, total_money := 2, moped_deliveries := 1,
                 moped_money := 2, missed_orders := 1 } }
    600 640 10 1 false false 0 (Moped_Rider "Anne" 32)
    ((Moped_Rider "Anne" 32).add_distance 10) [] []
    (by decide!) (by decide!) (by decide!) (by decide!) (by decide!) (by decide!) (by decide!)

end DeliverEats
